import Mathlib

/-!
cluster-shared-memory: a shallow embedding of `src/manager.js` and `src/worker.js`

The coordinator (`Manager`) and the worker-side proxy (`Worker`) are embedded as
pure state-passing functions.

Modelling conventions

* A JavaScript plain object used as a dictionary (`memory`, `locks`,
  `lockRequestQueues`, `listeners`, the worker tables) is a map from property
  name to an optional own property (`Dict`).  A key is turned into a property
  name by `Key.toPropertyKey`.
* The definitions describe the code for ordinary keys (`Key.ordinary`): a
  string that names no member of `Object.prototype`, or a safe integer.  For a
  name such as `constructor` the tables of the code, created as `{}`, yield an
  inherited member where this model finds no entry, and an integer beyond the
  safe range need not be named by its decimal numeral.  Statements that rest
  on how a table is read or extended carry `Key.ordinary` as a hypothesis; the
  last section of the definitions follows the code at a key that names a
  member of `Object.prototype` (`Dict.read`).
* Functions are first-order values (`Fn`): a function supplied by the caller,
  the `resolve` function of a promise created by `getLock`, or the listener
  closure that `Manager.handle` builds for a worker.  Functions supplied by a
  caller are passive: calling one is recorded in the trace and has no other
  effect on the coordinator.
* `uuid4` is a parameter: `uuid4 n` is what the `n`-th call of the generator
  returns; the state counts the calls.
* Every observable action is appended to `trace`, oldest first.
* The `lru-cache` object of the coordinator is a parameter (`LRUCache`).
* `Coordinator.handle` is the synchronous body of `handle` followed by the
  promise reactions that run right after it: a reply is sent once the promise
  of the called method is resolved.
-/

namespace SharedMemory

/-! ## Values -/

/-- A serialisable JavaScript value.  A plain object is given by its JSON text. -/
inductive JSValue where
  | undefined
  | null
  | bool (b : Bool)
  | number (n : Int)
  | string (s : String)
  | object (json : String)
  deriving DecidableEq, Repr

/-- JavaScript truthiness (`if (v)`, `v ? a : b`). -/
def JSValue.truthy : JSValue → Bool
  | .undefined => false
  | .null => false
  | .bool b => b
  | .number n => n != 0
  | .string s => s != ""
  | .object _ => true

/-- String conversion as performed by a template literal. -/
def JSValue.toJSString : JSValue → String
  | .undefined => "undefined"
  | .null => "null"
  | .bool true => "true"
  | .bool false => "false"
  | .number n => toString n
  | .string s => s
  | .object _ => "[object Object]"

/-- A key of the data model, `type Key = string | number` (an integer). -/
inductive Key where
  | str (s : String)
  | num (n : Int)
  deriving DecidableEq, Repr

/-- The property name under which `obj[key]` is stored: the string itself, and
for an integer its decimal numeral, which is what JavaScript gives for every
safe integer (see `Key.ordinary`). -/
def Key.toPropertyKey : Key → String
  | .str s => s
  | .num n => toString n

/-- Truthiness of a key, as tested by `if (key)`. -/
def Key.truthy : Key → Bool
  | .str s => s != ""
  | .num n => n != 0

/-- The names of the members that an object created as `{}` inherits from
`Object.prototype`. -/
def objectPrototypeNames : List String :=
  ["constructor", "__defineGetter__", "__defineSetter__", "hasOwnProperty",
   "__lookupGetter__", "__lookupSetter__", "isPrototypeOf", "propertyIsEnumerable",
   "toString", "valueOf", "__proto__", "toLocaleString"]

/-- The keys for which this model describes the code: a string that names no
member of `Object.prototype`, so that `obj[key]` on a table finds an own
property or nothing, or a safe integer (at most `2^53 - 1` in absolute value),
so that its property name is its decimal numeral. -/
def Key.ordinary : Key → Bool
  | .str s => !objectPrototypeNames.contains s
  | .num n => decide (-9007199254740991 ≤ n) && decide (n ≤ 9007199254740991)

/-- A function value. -/
inductive Fn where
  /-- A function supplied by the caller, identified by `id`. -/
  | user (id : Nat)
  /-- The `resolve` function of promise number `promise` (created by `getLock`). -/
  | resolve (promise : Nat)
  /-- The listener closure number `closure` built by `Manager.handle` for a
  `listen` request `data` received from the worker `target`. -/
  | listener (closure : Nat) (target : Nat) (id : JSValue) (uuid : JSValue) (key : Key)
  deriving DecidableEq, Repr

/-- An argument in callback position: a function or any other value
(`.val .undefined` when the argument is omitted). -/
inductive Arg where
  | fn (f : Fn)
  | val (v : JSValue)
  deriving DecidableEq, Repr

/-- The test `typeof callback === 'function'`. -/
def Arg.isFunction : Arg → Bool
  | .fn _ => true
  | .val _ => false

/-! ## Dictionaries -/

/-- A plain object used as a dictionary: its own properties by name.  A read
`obj[p]` is the own property or `undefined`, which is what the code gives for
the name of an ordinary key (`Key.ordinary`). -/
abbrev Dict (α : Type) := String → Option α

/-- The object literal `{}`. -/
def Dict.empty {α : Type} : Dict α := fun _ => none

/-- The assignment `obj[p] = a`. -/
def Dict.assign {α : Type} (d : Dict α) (p : String) (a : α) : Dict α :=
  fun q => if q = p then some a else d q

/-- The statement `delete obj[p]`. -/
def Dict.delete {α : Type} (d : Dict α) (p : String) : Dict α :=
  fun q => if q = p then none else d q

/-! ## Coordinator state -/

/-- A message sent by the coordinator to a worker. -/
structure Message where
  isSharedMemoryMessage : Bool
  isNotified : Bool
  id : JSValue
  uuid : JSValue
  value : JSValue
  deriving DecidableEq, Repr

/-- What the coordinator can observe of a `cluster.Worker`. -/
structure WorkerStatus where
  /-- Result of `isConnected()`. -/
  connected : Bool
  /-- Result of `isDead()`. -/
  dead : Bool
  /-- Whether the callback of `send` is called with an error. -/
  sendError : Bool
  deriving DecidableEq, Repr

/-- An observable action of the coordinator. -/
inductive Event where
  /-- In `handleLockRequest`: `callback(lockId)` for the waiter `callback` of `key`. -/
  | granted (key : String) (waiter : Fn) (lockId : String)
  /-- In `releaseLock`: `delete locks[key]` after `lockId` matched. -/
  | released (key : String) (lockId : JSValue)
  /-- Any other call `f(arg)` of a caller-supplied function. -/
  | called (f : Fn) (arg : JSValue)
  /-- The call `target.send(msg, ...)`. -/
  | sent (target : Nat) (msg : Message)
  /-- The call `this.logger(error)` for a failed send to `target`. -/
  | logged (target : Nat)
  deriving DecidableEq, Repr

/-- The state of a `Manager`: the four tables of `__sharedMemory__`, the
counters that give identities to tokens and promises, the status of the workers
and the trace of observable actions. -/
structure Manager where
  memory : Dict JSValue
  locks : Dict String
  lockRequestQueues : Dict (List Fn)
  listeners : Dict (List Fn)
  /-- Number of calls of `uuid4` made so far. -/
  uuidCalls : Nat
  /-- Number of promises created by `getLock` so far. -/
  promises : Nat
  workers : Nat → WorkerStatus
  trace : List Event

/-- What a method returns. -/
inductive Ret where
  /-- The method returned `undefined` (no promise). -/
  | undefined
  /-- The method returned a promise that is already resolved with `v`. -/
  | resolved (v : JSValue)
  /-- The method returned promise number `p`, resolved when `Fn.resolve p` is called. -/
  | promise (p : Nat)
  deriving DecidableEq, Repr

/-- The state built by the constructor, for the given worker statuses. -/
def Manager.init (workers : Nat → WorkerStatus) : Manager :=
  { memory := Dict.empty, locks := Dict.empty, lockRequestQueues := Dict.empty,
    listeners := Dict.empty, uuidCalls := 0, promises := 0, workers := workers, trace := [] }

/-- Record an action. -/
def Manager.emit (s : Manager) (e : Event) : Manager :=
  { s with trace := s.trace ++ [e] }

/-! ## Primary store and listeners -/

/-- The method `__sharedMemory__.get(key)`: `this.memory[key]`, for an ordinary
key. -/
def Manager.memoryGet (s : Manager) (key : Key) : JSValue :=
  (s.memory key.toPropertyKey).getD .undefined

/-- The method `removeListener(key, listener)`: `indexOf` then `splice(index, 1)`. -/
def Manager.removeListener (s : Manager) (key : Key) (listener : Fn) : Manager :=
  match s.listeners key.toPropertyKey with
  | some ls => if listener ∈ ls then
      { s with listeners := s.listeners.assign key.toPropertyKey (ls.erase listener) }
    else s
  | none => s

/-- One call `callback(value)` made by `notifyListener`.  For the closure of
`Manager.handle` this is the body of `listener`; a caller-supplied function is
recorded. -/
def Manager.callListener (s : Manager) (callback : Fn) (value : JSValue) : Manager :=
  match callback with
  | .listener c target id uuid key =>
    if (s.workers target).connected then
      let s1 := s.emit (.sent target
        { isSharedMemoryMessage := true, isNotified := true, id := id, uuid := uuid,
          value := value })
      if (s.workers target).sendError then s1.emit (.logged target) else s1
    else if (s.workers target).dead then
      s.removeListener key (.listener c target id uuid key)
    else s
  | f => s.emit (.called f value)

/-- The loop of `listeners.map(...)` in `notifyListener`: `n` indices remain,
starting at index `k`, over the array currently stored under `p`; an index
that is no longer in the array is skipped. -/
def Manager.mapListeners (p : String) (value : JSValue) : Nat → Nat → Manager → Manager
  | 0, _, s => s
  | n + 1, k, s =>
    match ((s.listeners p).getD [])[k]? with
    | some callback => Manager.mapListeners p value n (k + 1) (s.callListener callback value)
    | none => Manager.mapListeners p value n (k + 1) s

/-- The method `notifyListener(key)`, for an ordinary key: `listeners[key]` is
an array of the registry or `undefined`. -/
def Manager.notifyListener (s : Manager) (key : Key) : Manager :=
  match s.listeners key.toPropertyKey with
  | some ls => Manager.mapListeners key.toPropertyKey (s.memoryGet key) ls.length 0 s
  | none => s

/-- The statements `__sharedMemory__.set(key, value); notifyListener(key)` shared
by both branches of `set`. -/
def Manager.store (s : Manager) (key : Key) (value : JSValue) : Manager :=
  Manager.notifyListener { s with memory := s.memory.assign key.toPropertyKey value } key

/-- The method `set(key, value, callback)`. -/
def Manager.set (s : Manager) (key : Key) (value : JSValue) (callback : Arg) : Manager × Ret :=
  if key.truthy then
    let s1 := match callback with
      | .fn f => (s.store key value).emit (.called f (.string "OK"))
      | .val _ => s
    (s1.store key value, .resolved (.string "OK"))
  else (s, .undefined)

/-- The method `get(key, callback)`. -/
def Manager.get (s : Manager) (key : Key) (callback : Arg) : Manager × Ret :=
  let s1 := match callback with
    | .fn f => s.emit (.called f (s.memoryGet key))
    | .val _ => s
  (s1, .resolved (s1.memoryGet key))

/-- The statements `__sharedMemory__.remove(key); notifyListener(key)` shared by
both branches of `remove`. -/
def Manager.unstore (s : Manager) (key : Key) : Manager :=
  Manager.notifyListener { s with memory := s.memory.delete key.toPropertyKey } key

/-- The method `remove(key, callback)`. -/
def Manager.remove (s : Manager) (key : Key) (callback : Arg) : Manager × Ret :=
  let s1 := match callback with
    | .fn f => (s.unstore key).emit (.called f (.string "OK"))
    | .val _ => s
  (s1.unstore key, .resolved (.string "OK"))

/-- The method `listen(key, callback)`: the state after the call, and `.error`
with the message of the `Error` when one is thrown.  The branch without a
function is the code for every key; the branch with a function is the code for
an ordinary key, where `listeners[key] ?? []` is an array (see
`Manager.listenAt` for the other keys). -/
def Manager.listen (s : Manager) (key : Key) (callback : Arg) : Manager × Except String Unit :=
  match callback with
  | .fn f =>
    let ls := (s.listeners key.toPropertyKey).getD [] ++ [f]
    ({ s with listeners := s.listeners.assign key.toPropertyKey ls }, .ok ())
  | .val _ => (s, .error "a listener must have a callback.")

/-! ## Lock manager -/

/-- The test `!locks[key]`: no own property, or the empty string. -/
def lockFree (held : Option String) : Bool :=
  match held with
  | none => true
  | some t => t == ""

/-- The comparison `lockId === locks[key]`. -/
def lockIdMatches (lockId : JSValue) (held : Option String) : Bool :=
  match lockId, held with
  | .undefined, none => true
  | .string s, some t => s == t
  | _, _ => false

/-- The method `handleLockRequest(key)`. -/
def Manager.handleLockRequest (uuid4 : Nat → String) (s : Manager) (key : Key) : Manager :=
  match lockFree (s.locks key.toPropertyKey), s.lockRequestQueues key.toPropertyKey with
  | true, some (callback :: rest) =>
    { s with
      lockRequestQueues := s.lockRequestQueues.assign key.toPropertyKey rest,
      uuidCalls := s.uuidCalls + 1,
      locks := s.locks.assign key.toPropertyKey (uuid4 s.uuidCalls),
      trace := s.trace ++ [.granted key.toPropertyKey callback (uuid4 s.uuidCalls)] }
  | _, _ => s

/-- The three statements shared by both branches of `getLock`, for the waiter
`f` and an ordinary key (`lockRequestQueues[key] ?? []` is an array). -/
def Manager.enqueue (uuid4 : Nat → String) (s : Manager) (key : Key) (f : Fn) : Manager :=
  let queue := (s.lockRequestQueues key.toPropertyKey).getD [] ++ [f]
  Manager.handleLockRequest uuid4
    { s with lockRequestQueues := s.lockRequestQueues.assign key.toPropertyKey queue } key

/-- The method `getLock(key, callback)`. -/
def Manager.getLock (uuid4 : Nat → String) (s : Manager) (key : Key) (callback : Arg) :
    Manager × Ret :=
  let s1 := match callback with
    | .fn f => Manager.enqueue uuid4 s key f
    | .val _ => s
  (Manager.enqueue uuid4 { s1 with promises := s1.promises + 1 } key (.resolve s1.promises),
    .promise s1.promises)

/-- The text of the failure reported by `releaseLock`. -/
def lockMismatch (key : Key) (lockId : JSValue) : String :=
  "Failed. LockId:" ++ lockId.toJSString ++ " does not match " ++ key.toPropertyKey ++
    "'s lockId."

/-- The `if`/`else` shared by both branches of `releaseLock`: the new state and
the value passed to `callback` or `resolve`. -/
def Manager.release (uuid4 : Nat → String) (s : Manager) (key : Key) (lockId : JSValue) :
    Manager × JSValue :=
  if lockIdMatches lockId (s.locks key.toPropertyKey) then
    (Manager.handleLockRequest uuid4
      { s with locks := s.locks.delete key.toPropertyKey,
               trace := s.trace ++ [.released key.toPropertyKey lockId] } key,
     .string "OK")
  else (s, .string (lockMismatch key lockId))

/-- The method `releaseLock(key, lockId, callback)`. -/
def Manager.releaseLock (uuid4 : Nat → String) (s : Manager) (key : Key) (lockId : JSValue)
    (callback : Arg) : Manager × Ret :=
  let s1 := match callback with
    | .fn f => ((Manager.release uuid4 s key lockId).1).emit
        (.called f (Manager.release uuid4 s key lockId).2)
    | .val _ => s
  ((Manager.release uuid4 s1 key lockId).1, .resolved (Manager.release uuid4 s1 key lockId).2)

/-! ## Sequences of lock calls and their traces -/

/-- A call of one of the two lock methods. -/
inductive LockCall where
  | getLock (key : Key) (callback : Arg)
  | releaseLock (key : Key) (lockId : JSValue) (callback : Arg)
  deriving DecidableEq, Repr

/-- The state after one lock call. -/
def Manager.lockCall (uuid4 : Nat → String) (s : Manager) : LockCall → Manager
  | .getLock key callback => (s.getLock uuid4 key callback).1
  | .releaseLock key lockId callback => (s.releaseLock uuid4 key lockId callback).1

/-- The state after a sequence of lock calls. -/
def Manager.lockCalls (uuid4 : Nat → String) (s : Manager) (calls : List LockCall) : Manager :=
  calls.foldl (Manager.lockCall uuid4) s

/-- The outstanding token of each key after the lock events of a trace, starting
from `held`: a grant makes its token outstanding, a release clears the key. -/
def holders (held : Dict String) : List Event → Dict String
  | [] => held
  | .granted p _ t :: es => holders (held.assign p t) es
  | .released p _ :: es => holders (held.delete p) es
  | _ :: es => holders held es

/-- Mutual exclusion on a trace, starting from the outstanding tokens `held`:
a token is handed out for a key only while no token of that key is outstanding,
and a key is given up only by a release whose `lockId` is the outstanding token. -/
def exclusive (held : Dict String) : List Event → Bool
  | [] => true
  | .granted p _ t :: es => (held p).isNone && exclusive (held.assign p t) es
  | .released p lockId :: es => lockIdMatches lockId (held p) && exclusive (held.delete p) es
  | _ :: es => exclusive held es

/-- The invariant behind mutual exclusion: the trace is exclusive, the
outstanding tokens of the trace are the lock table, and no recorded token is
the empty string. -/
structure LockInv (s : Manager) : Prop where
  excl : exclusive Dict.empty s.trace = true
  held : holders Dict.empty s.trace = s.locks
  nonempty : ∀ p t, s.locks p = some t → t ≠ ""

/-- A generator that returns `"u"`, `"uu"`, `"uuu"`, ...: never empty, never twice the same. -/
def sampleUuid4 (n : Nat) : String := String.mk (List.replicate (n + 1) 'u')

/-- Workers that are all connected and alive, with working sends. -/
def sampleWorkers : Nat → WorkerStatus :=
  fun _ => { connected := true, dead := false, sendError := false }

/-- The grants made for key `p` in a trace, oldest first: waiter and token. -/
def grants (p : String) : List Event → List (Fn × String)
  | [] => []
  | .granted q w t :: es => if q = p then (w, t) :: grants p es else grants p es
  | _ :: es => grants p es

/-- The waiters that a call puts on the queue of key `p`, in order: a `getLock`
on `p` pushes its callback when one is given, then the `resolve` function of
the promise it returns. -/
def LockCall.requesters (s : Manager) (p : String) : LockCall → List Fn
  | .getLock key callback =>
    if key.toPropertyKey = p then
      (match callback with
        | .fn f => [f]
        | .val _ => []) ++ [.resolve s.promises]
    else []
  | .releaseLock _ _ _ => []

/-- The waiters put on the queue of key `p` by a sequence of calls, in call order. -/
def Manager.requesters (uuid4 : Nat → String) (s : Manager) (p : String) :
    List LockCall → List Fn
  | [] => []
  | c :: cs => c.requesters s p ++ Manager.requesters uuid4 (s.lockCall uuid4 c) p cs

/-- The scenario of FIFO order: `n` calls `getLock(key)`, then `m` calls
`releaseLock(key, token)` where the `i`-th release passes the `i`-th token
minted after `first` earlier calls of `uuid4`. -/
def fifoScenario (uuid4 : Nat → String) (first : Nat) (key : Key) (n m : Nat) : List LockCall :=
  List.replicate n (.getLock key (.val .undefined)) ++
    (List.range m).map
      (fun i => .releaseLock key (.string (uuid4 (first + i))) (.val .undefined))

/-- Key `p` while it is held, `n` requests after the state `s0` in which it was
idle, the first `i + 1` of them granted: the holder is the token minted for
request `i` and the requests after it wait in order. -/
structure Serving (uuid4 : Nat → String) (s0 : Manager) (p : String) (n i : Nat)
    (s : Manager) : Prop where
  lt : i < n
  locks : s.locks p = some (uuid4 (s0.uuidCalls + i))
  queue : s.lockRequestQueues p =
    some ((List.range' (i + 1) (n - (i + 1))).map (fun j => Fn.resolve (s0.promises + j)))
  uuidCalls : s.uuidCalls = s0.uuidCalls + (i + 1)
  promises : s.promises = s0.promises + n
  grants : grants p s.trace = grants p s0.trace ++
    (List.range (i + 1)).map (fun j => (Fn.resolve (s0.promises + j), uuid4 (s0.uuidCalls + j)))

/-! ## Dispatcher -/

/-- The argument list that `handle` builds for a request that is not `listen`:
`data.value ? [data.key, data.value] : [data.key]`.  The second component is
the second argument that the method receives, `undefined` when the list has one
element. -/
def Manager.handleArgs (key : Key) (value : JSValue) : Key × JSValue :=
  if value.truthy then (key, value) else (key, .undefined)

/-! ## Mutex -/

/-- How the call `func()` awaited by `mutex` completes. -/
inductive Completion where
  /-- The body returned (or its promise resolved with) `result`. -/
  | returned (result : JSValue)
  /-- The body threw (or its promise rejected with) `error`. -/
  | threw (error : JSValue)
  deriving DecidableEq, Repr

/-- The token with which promise `p` of `getLock` was resolved, if it was. -/
def resolution (p : Nat) : List Event → Option String
  | [] => none
  | .granted _ w t :: es => if w = .resolve p then some t else resolution p es
  | _ :: es => resolution p es

/-- The async function of `mutex` after `await this.getLock(key)` yielded
`lockId`: `await func()`, then `await this.releaseLock(key, lockId)`, then
`return result`.  The body acts on the coordinator state as `func`; when it
fails, the async function is rejected at that `await` and nothing after it runs. -/
def Manager.mutexBody (uuid4 : Nat → String) (s : Manager) (key : Key) (lockId : JSValue)
    (func : Manager → Manager × Completion) : Manager × Completion :=
  match func s with
  | (s1, .returned result) =>
    ((s1.releaseLock uuid4 key lockId (.val .undefined)).1, .returned result)
  | (s1, .threw error) => (s1, .threw error)

/-- The method `mutex(key, func)`: `none` while the promise of `getLock` is
pending, otherwise how the returned promise settles. -/
def Manager.mutex (uuid4 : Nat → String) (s : Manager) (key : Key)
    (func : Manager → Manager × Completion) : Manager × Option Completion :=
  match s.getLock uuid4 key (.val .undefined) with
  | (s1, .promise p) =>
    match resolution p s1.trace with
    | some lockId =>
      ((Manager.mutexBody uuid4 s1 key (.string lockId) func).1,
        some (Manager.mutexBody uuid4 s1 key (.string lockId) func).2)
    | none => (s1, none)
  | (s1, _) => (s1, none)

/-! ## Sequences of writes and the calls of a listener -/

/-- A write to the primary store, made without callback. -/
inductive Write where
  | set (key : Key) (value : JSValue)
  | remove (key : Key)
  deriving DecidableEq, Repr

/-- The state after one write. -/
def Manager.write (s : Manager) : Write → Manager
  | .set key value => (s.set key value (.val .undefined)).1
  | .remove key => (s.remove key (.val .undefined)).1

/-- The state after a sequence of writes during which the status of the workers
does not change (see `Manager.writesUnder` for the general case). -/
def Manager.writes (s : Manager) (ws : List Write) : Manager :=
  ws.foldl Manager.write s

/-- The arguments of the calls of `f` recorded in a trace, oldest first. -/
def callsOf (f : Fn) : List Event → List JSValue
  | [] => []
  | .called g v :: es => if g = f then v :: callsOf f es else callsOf f es
  | _ :: es => callsOf f es

/-- What a write delivers to the listeners stored under the property name `p`:
the value of a `set` whose key is truthy and names `p`, `undefined` for a
`remove` whose key names `p`, nothing otherwise. -/
def Write.notification (p : String) : Write → Option JSValue
  | .set key value => if key.truthy ∧ key.toPropertyKey = p then some value else none
  | .remove key => if key.toPropertyKey = p then some .undefined else none

/-- Whether a call of the listener `f` removes it from the registry: `f` is a
closure of `Manager.handle` whose worker is disconnected and dead. -/
def prunable (workers : Nat → WorkerStatus) : Fn → Bool
  | .listener _ target _ _ _ => !(workers target).connected && (workers target).dead
  | _ => false

/-- Workers that have all exited. -/
def deadWorkers : Nat → WorkerStatus :=
  fun _ => { connected := false, dead := true, sendError := false }

/-- The listener `c` is registered under the property name `p`, whose list is
`ls`, and under no other name; the workers are `workers`. -/
structure Subscribed (workers : Nat → WorkerStatus) (p : String) (ls : List Fn) (c : Fn)
    (s : Manager) : Prop where
  status : s.workers = workers
  here : s.listeners p = some ls
  elsewhere : ∀ q l, q ≠ p → s.listeners q = some l → c ∉ l

/-! ## Worker -/

/-- A request sent by a worker to the coordinator with `process.send`. -/
structure Request where
  isSharedMemoryMessage : Bool
  /-- The field `id`: `cluster.worker.id`. -/
  id : Nat
  method : String
  uuid : String
  key : Key
  value : JSValue
  deriving DecidableEq, Repr

/-- The state of a `Worker`: the two correlation tables, the identity of the
process, the number of calls of `uuid4` made so far and the requests sent,
oldest first. -/
structure Worker where
  __getCallbacks__ : Dict Fn
  __getListenerCallbacks__ : Dict Fn
  id : Nat
  uuidCalls : Nat
  sent : List Request

/-- The method `handle(method, key, value, callback)` of the worker. -/
def Worker.handle (uuid4 : Nat → String) (w : Worker) (method : String) (key : Key)
    (value : JSValue) (callback : Fn) : Worker :=
  let uuid := uuid4 w.uuidCalls
  let w1 : Worker :=
    { w with
      uuidCalls := w.uuidCalls + 1,
      sent := w.sent ++ [{ isSharedMemoryMessage := true, id := w.id, method := method,
                           uuid := uuid, key := key, value := value }] }
  if method = "listen" then
    { w1 with __getListenerCallbacks__ := w1.__getListenerCallbacks__.assign uuid callback }
  else
    { w1 with __getCallbacks__ := w1.__getCallbacks__.assign uuid callback }

/-- The method `listen(key, callback)` of the worker: the state after the call,
and `.error` with the message of the `Error` when one is thrown. -/
def Worker.listen (uuid4 : Nat → String) (w : Worker) (key : Key) (callback : Arg) :
    Worker × Except String Unit :=
  match callback with
  | .fn f => (Worker.handle uuid4 w "listen" key .null f, .ok ())
  | .val _ => (w, .error "a listener must have a callback.")

/-- The handler of `process.on('message', ...)` of the worker: the state after
the message `data`, and the calls `callback(data.value)` it makes, in order. -/
def Worker.receive (w : Worker) (data : Message) : Worker × List (Fn × JSValue) :=
  if data.isSharedMemoryMessage then
    if data.isNotified then
      match w.__getListenerCallbacks__ data.uuid.toJSString with
      | some callback => (w, [(callback, data.value)])
      | none => (w, [])
    else
      ({ w with __getCallbacks__ := w.__getCallbacks__.delete data.uuid.toJSString },
        match w.__getCallbacks__ data.uuid.toJSString with
        | some callback => [(callback, data.value)]
        | none => [])
  else (w, [])

/-- The handler applied to a sequence of messages in arrival order: the final
state and all the calls made, in order. -/
def Worker.receiveAll (w : Worker) : List Message → Worker × List (Fn × JSValue)
  | [] => (w, [])
  | data :: rest =>
    ((Worker.receiveAll (w.receive data).1 rest).1,
      (w.receive data).2 ++ (Worker.receiveAll (w.receive data).1 rest).2)

/-- The body shared by the worker methods `get`, `getLock`, `releaseLock` and
`getLRU`: with a function as `callback` one request is sent for it, then a
promise is created and a request is sent whose callback `(value) => resolve(value)`
resolves it.  The promise is numbered by the call of `uuid4` made for its
request. -/
def Worker.request (uuid4 : Nat → String) (w : Worker) (method : String) (key : Key)
    (value : JSValue) (callback : Arg) : Worker × Ret :=
  let w1 := match callback with
    | .fn f => w.handle uuid4 method key value f
    | .val _ => w
  (w1.handle uuid4 method key value (.resolve w1.uuidCalls), .promise w1.uuidCalls)

/-- The method `getLock(key, callback)` of the worker. -/
def Worker.getLock (uuid4 : Nat → String) (w : Worker) (key : Key) (callback : Arg) :
    Worker × Ret :=
  Worker.request uuid4 w "getLock" key .null callback

/-- The method `releaseLock(key, lockId, callback)` of the worker. -/
def Worker.releaseLock (uuid4 : Nat → String) (w : Worker) (key : Key) (lockId : JSValue)
    (callback : Arg) : Worker × Ret :=
  Worker.request uuid4 w "releaseLock" key lockId callback

/-- A worker that has sent nothing yet. -/
def Worker.init (id : Nat) : Worker :=
  { __getCallbacks__ := Dict.empty, __getListenerCallbacks__ := Dict.empty, id := id,
    uuidCalls := 0, sent := [] }

/-! ## Coordinator: the manager with its bounded store and its dispatcher -/

/-- The operations of the `lru-cache` object that the coordinator uses, on a
state of type `L`.  The library is not part of the repository: its operations
are parameters. -/
structure LRUCache (L : Type) where
  /-- The call `cache.get(key)`: the cache afterwards and the value or `undefined`. -/
  get : L → Key → L × JSValue
  /-- The call `cache.set(key, value)`. -/
  set : L → Key → JSValue → L
  /-- The call `cache.del(key)`. -/
  del : L → Key → L

/-- A reaction `.then((value) => ...)` that `handle` registered on a promise of
`getLock`: the promise, the worker to answer and the request. -/
structure Reaction where
  promise : Nat
  target : Nat
  data : Request
  deriving DecidableEq, Repr

/-- The coordinator: the manager state, the bounded store `__sharedLRUMemory__`,
the number of listener closures created by `handle` so far, and the reactions
of `handle` whose promise is still pending, oldest first. -/
structure Coordinator (L : Type) where
  manager : Manager
  lru : L
  closures : Nat
  reactions : List Reaction

/-- The coordinator after construction. -/
def Coordinator.init {L : Type} (workers : Nat → WorkerStatus) (lru : L) : Coordinator L :=
  { manager := Manager.init workers, lru := lru, closures := 0, reactions := [] }

/-- The method `getLRU(key, callback)`. -/
def Coordinator.getLRU {L : Type} (c : LRUCache L) (s : Coordinator L) (key : Key)
    (callback : Arg) : Coordinator L × Ret :=
  let s1 : Coordinator L := match callback with
    | .fn f =>
      { s with lru := (c.get s.lru key).1,
               manager := s.manager.emit (.called f (c.get s.lru key).2) }
    | .val _ => s
  ({ s1 with lru := (c.get s1.lru key).1 }, .resolved (c.get s1.lru key).2)

/-- The method `setLRU(key, value, callback)`. -/
def Coordinator.setLRU {L : Type} (c : LRUCache L) (s : Coordinator L) (key : Key)
    (value : JSValue) (callback : Arg) : Coordinator L × Ret :=
  if key.truthy then
    let s1 : Coordinator L := match callback with
      | .fn f =>
        { s with lru := c.set s.lru key value,
                 manager := s.manager.emit (.called f (.string "OK")) }
      | .val _ => s
    ({ s1 with lru := c.set s1.lru key value }, .resolved (.string "OK"))
  else (s, .undefined)

/-- The method `removeLRU(key, callback)`. -/
def Coordinator.removeLRU {L : Type} (c : LRUCache L) (s : Coordinator L) (key : Key)
    (callback : Arg) : Coordinator L × Ret :=
  let s1 : Coordinator L := match callback with
    | .fn f =>
      { s with lru := c.del s.lru key,
               manager := s.manager.emit (.called f (.string "OK")) }
    | .val _ => s
  ({ s1 with lru := c.del s1.lru key }, .resolved (.string "OK"))

/-- The body of the reaction of `handle`: `target.send(msg, null, ...)` with the
response for the request `data`, and `this.logger(error)` when the send fails. -/
def Manager.reply (s : Manager) (target : Nat) (data : Request) (value : JSValue) : Manager :=
  let s1 := s.emit (.sent target
    { isSharedMemoryMessage := true, isNotified := false, id := .number data.id,
      uuid := .string data.uuid, value := value })
  if (s.workers target).sendError then s1.emit (.logged target) else s1

/-- Run the reactions whose promise has been resolved, oldest first: the manager
after their replies and the reactions still pending. -/
def settleReactions (m : Manager) : List Reaction → Manager × List Reaction
  | [] => (m, [])
  | r :: rest =>
    match resolution r.promise m.trace with
    | some lockId => settleReactions (m.reply r.target r.data (.string lockId)) rest
    | none => ((settleReactions m rest).1, r :: (settleReactions m rest).2)

/-- The microtasks that follow a synchronous step of the coordinator. -/
def Coordinator.settle {L : Type} (s : Coordinator L) : Coordinator L :=
  { s with manager := (settleReactions s.manager s.reactions).1,
           reactions := (settleReactions s.manager s.reactions).2 }

/-- The call `this[data.method](...args)` of `handle` for the eight methods of
the protocol, `arg` being the second argument.  The result is `none` for any
other name: such a request is not covered by this model. -/
def Coordinator.invoke {L : Type} (uuid4 : Nat → String) (c : LRUCache L) (s : Coordinator L)
    (method : String) (key : Key) (arg : JSValue) : Option (Coordinator L × Ret) :=
  if method = "get" then
    some ({ s with manager := (s.manager.get key (.val arg)).1 }, (s.manager.get key (.val arg)).2)
  else if method = "set" then
    some ({ s with manager := (s.manager.set key arg (.val .undefined)).1 },
      (s.manager.set key arg (.val .undefined)).2)
  else if method = "remove" then
    some ({ s with manager := (s.manager.remove key (.val arg)).1 },
      (s.manager.remove key (.val arg)).2)
  else if method = "getLock" then
    some ({ s with manager := (s.manager.getLock uuid4 key (.val arg)).1 },
      (s.manager.getLock uuid4 key (.val arg)).2)
  else if method = "releaseLock" then
    some ({ s with manager := (s.manager.releaseLock uuid4 key arg (.val .undefined)).1 },
      (s.manager.releaseLock uuid4 key arg (.val .undefined)).2)
  else if method = "getLRU" then some (s.getLRU c key (.val arg))
  else if method = "setLRU" then some (s.setLRU c key arg (.val .undefined))
  else if method = "removeLRU" then some (s.removeLRU c key (.val arg))
  else none

/-- The method `handle(data, target)` followed by the microtasks it causes, for
a `listen` request or a request for one of the eight methods of the protocol:
the state afterwards, and `.error` when `handle` throws. -/
def Coordinator.handle {L : Type} (uuid4 : Nat → String) (c : LRUCache L) (s : Coordinator L)
    (data : Request) (target : Nat) : Coordinator L × Except String Unit :=
  if data.method = "listen" then
    let listener := Fn.listener s.closures target (.number data.id) (.string data.uuid) data.key
    ({ s with manager := (s.manager.listen data.key (.fn listener)).1,
              closures := s.closures + 1 }, .ok ())
  else
    match Coordinator.invoke uuid4 c s data.method (Manager.handleArgs data.key data.value).1
        (Manager.handleArgs data.key data.value).2 with
    | none => (s, .error "not covered: a method outside the eight methods of the protocol")
    | some (s1, .undefined) =>
      (s1, .error "TypeError: Cannot read properties of undefined (reading 'then')")
    | some (s1, .resolved value) =>
      ({ s1.settle with manager := s1.settle.manager.reply target data value }, .ok ())
    | some (s1, .promise p) =>
      (Coordinator.settle
        { s1 with reactions := s1.reactions ++ [{ promise := p, target := target, data := data }] },
        .ok ())

/-- A bounded store for examples: an association list, newest first, without
eviction. -/
def sampleLRU : LRUCache (List (Key × JSValue)) :=
  { get := fun l key => (l, ((l.find? (fun e => e.1 = key)).map Prod.snd).getD .undefined),
    set := fun l key value => (key, value) :: l,
    del := fun l key => l.filter (fun e => e.1 ≠ key) }

/-- The response that `handle` sends for the request `data` with the result `value`. -/
def Request.response (data : Request) (value : JSValue) : Message :=
  { isSharedMemoryMessage := true, isNotified := false, id := .number data.id,
    uuid := .string data.uuid, value := value }

/-- The scenario of read-after-write through the dispatcher: from the initial
state the coordinator handles the request `set` for `key` and `value`, then the
request `get` for `key` (a worker sends `null` as its value); the result is
the trace of the coordinator afterwards. -/
def setThenGet {L : Type} (uuid4 : Nat → String) (c : LRUCache L) (lru : L)
    (workers : Nat → WorkerStatus) (id target : Nat) (u1 u2 : String) (key : Key)
    (value : JSValue) : List Event :=
  (Coordinator.handle uuid4 c
    (Coordinator.handle uuid4 c (Coordinator.init workers lru)
      { isSharedMemoryMessage := true, id := id, method := "set", uuid := u1, key := key,
        value := value } target).1
    { isSharedMemoryMessage := true, id := id, method := "get", uuid := u2, key := key,
      value := .null } target).1.manager.trace

/-- No lost wake-up at the property name `p`: when a waiter is queued, `p` has
a truthy holder. -/
def Awake (s : Manager) (p : String) : Prop :=
  (s.lockRequestQueues p).getD [] ≠ [] → lockFree (s.locks p) = false

/-! ## Scenarios and frames for the listener registry -/

/-- Worker `1` has exited, every other worker is connected. -/
def oneDeadWorker : Nat → WorkerStatus :=
  fun n => if n = 1 then { connected := false, dead := true, sendError := false }
    else { connected := true, dead := false, sendError := false }

/-- Workers that have disconnected but whose process is alive. -/
def detachedWorkers : Nat → WorkerStatus :=
  fun _ => { connected := false, dead := false, sendError := false }

/-- Connected workers whose `send` reports an error. -/
def failingWorkers : Nat → WorkerStatus :=
  fun _ => { connected := true, dead := false, sendError := true }

/-- The scenario of a broadcast: on `'k'` are registered, in this order, the
function `0`, the listener closure of worker `1`, the functions `1` and `2`;
then `set('k', 5)` is called.  The result is the state afterwards. -/
def broadcastScenario (workers : Nat → WorkerStatus) : Manager :=
  let s1 := ((Manager.init workers).listen (.str "k") (.fn (.user 0))).1
  let s2 := (s1.listen (.str "k") (.fn (.listener 0 1 (.number 1) (.string "a") (.str "k")))).1
  let s3 := (s2.listen (.str "k") (.fn (.user 1))).1
  let s4 := (s3.listen (.str "k") (.fn (.user 2))).1
  (s4.set (.str "k") (.number 5) (.val .undefined)).1

/-- The scenario of a notification to one worker listener: the closure of
worker `1` is registered on `'k'`, then `set('k', 5)` is called. -/
def pruningScenario (workers : Nat → WorkerStatus) : Manager :=
  let s1 := ((Manager.init workers).listen (.str "k")
    (.fn (.listener 0 1 (.number 1) (.string "a") (.str "k")))).1
  (s1.set (.str "k") (.number 5) (.val .undefined)).1

/-- The events of one call `callback(value)` made by `notifyListener`. -/
def callEvents (workers : Nat → WorkerStatus) (callback : Fn) (value : JSValue) : List Event :=
  match callback with
  | .listener _ target id uuid _ =>
    if (workers target).connected then
      .sent target
        { isSharedMemoryMessage := true, isNotified := true, id := id, uuid := uuid,
          value := value } ::
        (if (workers target).sendError then [.logged target] else [])
    else []
  | f => [.called f value]

/-- Every listener closure in `ls` carries a key whose property name is `p`,
the name under which `handle` registers it. -/
def wellPlaced (p : String) (ls : List Fn) : Prop :=
  ∀ c t i u k, Fn.listener c t i u k ∈ ls → k.toPropertyKey = p

/-- The events that belong to a call on the key named `p`, given the listeners
`ls` registered under `p` and the callback argument of the call: a grant or a
release on `p`, a call of the callback, or an event of calling a listener
of `ls`. -/
def Event.concerns (workers : Nat → WorkerStatus) (p : String) (ls : List Fn) (callback : Arg)
    (e : Event) : Prop :=
  (∃ w t, e = .granted p w t) ∨ (∃ l, e = .released p l) ∨
  (∃ f v, callback = .fn f ∧ e = .called f v) ∨
  (∃ f v, f ∈ ls ∧ e ∈ callEvents workers f v)

/-- The frame of a step from `s` to `s2` that works on the key named `p`, seen
from another property name `p2`: the entries of `p2` in the four tables are
unchanged, the listeners under `p` stay among `ls`, no grant is made on `p2`,
and every event added to the trace concerns `p`. -/
structure Step (ls : List Fn) (p p2 : String) (callback : Arg) (s s2 : Manager) : Prop where
  status : s2.workers = s.workers
  memory : s2.memory p2 = s.memory p2
  locks : s2.locks p2 = s.locks p2
  queue : s2.lockRequestQueues p2 = s.lockRequestQueues p2
  listeners : s2.listeners p2 = s.listeners p2
  sub : ∀ f ∈ (s2.listeners p).getD [], f ∈ ls
  granted : grants p2 s2.trace = grants p2 s.trace
  events : ∃ new, s2.trace = s.trace ++ new ∧
    ∀ e ∈ new, Event.concerns s.workers p ls callback e

/-! ## Ordinary keys in sequences, and writes under a changing worker status -/

/-- The key of a lock call. -/
def LockCall.key : LockCall → Key
  | .getLock key _ => key
  | .releaseLock key _ _ => key

/-- The key of a write. -/
def Write.key : Write → Key
  | .set key _ => key
  | .remove key => key

/-- One step of the environment and the coordinator: the status of the workers
becomes `step.1` (workers may have exited or disconnected since the last
step), then the write `step.2` is made. -/
def Manager.writeUnder (s : Manager) (step : (Nat → WorkerStatus) × Write) : Manager :=
  Manager.write { s with workers := step.1 } step.2

/-- The state after a sequence of such steps. -/
def Manager.writesUnder (s : Manager) (steps : List ((Nat → WorkerStatus) × Write)) : Manager :=
  steps.foldl Manager.writeUnder s

/-- The calls `callback(value)` made by the loop of `notifyListener`, in order:
the loop of `Manager.mapListeners`, keeping the callback and the value of each
call instead of the state. -/
def Manager.mapCalls (p : String) (value : JSValue) : Nat → Nat → Manager → List (Fn × JSValue)
  | 0, _, _ => []
  | n + 1, k, s =>
    match ((s.listeners p).getD [])[k]? with
    | some callback =>
      (callback, value) :: Manager.mapCalls p value n (k + 1) (s.callListener callback value)
    | none => Manager.mapCalls p value n (k + 1) s

/-- The calls of listeners made by `notifyListener(key)`. -/
def Manager.notifyCalls (s : Manager) (key : Key) : List (Fn × JSValue) :=
  match s.listeners key.toPropertyKey with
  | some ls => Manager.mapCalls key.toPropertyKey (s.memoryGet key) ls.length 0 s
  | none => []

/-- The calls of listeners made by one write. -/
def Manager.writeCalls (s : Manager) : Write → List (Fn × JSValue)
  | .set key value =>
    if key.truthy then
      Manager.notifyCalls { s with memory := s.memory.assign key.toPropertyKey value } key
    else []
  | .remove key => Manager.notifyCalls { s with memory := s.memory.delete key.toPropertyKey } key

/-- The calls of listeners made by a sequence of steps, in order. -/
def Manager.writesCalls (s : Manager) : List ((Nat → WorkerStatus) × Write) → List (Fn × JSValue)
  | [] => []
  | step :: rest =>
    Manager.writeCalls { s with workers := step.1 } step.2 ++
      Manager.writesCalls (s.writeUnder step) rest

/-- The values with which the listener `cb` is called in a list of calls. -/
def valuesFor (cb : Fn) (calls : List (Fn × JSValue)) : List JSValue :=
  (calls.filter (fun x => x.1 = cb)).map Prod.snd

/-- Whether the key carried by a listener closure of `Manager.handle` is
ordinary; a function of another kind carries no key. -/
def Fn.ordinary : Fn → Bool
  | .listener _ _ _ _ key => key.ordinary
  | _ => true

/-! ## Keys that name a member of `Object.prototype`

The four tables are created as `{}`, so `table[key]` is looked up along the
prototype chain.  The definitions below follow the code at these keys; the
definitions above are the same methods for ordinary keys. -/

/-- What the expression `table[p]` yields on a table created as `{}`: the own
property when there is one, else the member of `Object.prototype` named `p` (a
function, or the prototype object for `__proto__`), else `undefined`. -/
inductive Slot (α : Type) where
  | own (a : α)
  | inherited (name : String)
  | undefined
  deriving DecidableEq, Repr

/-- The expression `table[p]`. -/
def Dict.read {α : Type} (d : Dict α) (p : String) : Slot α :=
  match d p with
  | some a => .own a
  | none => if objectPrototypeNames.contains p then .inherited p else .undefined

/-- The `TypeError` thrown by `table[key].push(f)` when `table[key]` is not an
array; the text given by the engine names the expression and ends in
`push is not a function`. -/
def pushIsNotAFunction : String := "TypeError: push is not a function"

/-- The value `this.memory[key]` to which `get(key)` resolves, for the string
key `p`. -/
def Manager.getAt (s : Manager) (p : String) : Slot JSValue :=
  s.memory.read p

/-- The method `getLock(key, callback)` for the string key `p`.  When
`lockRequestQueues[p]` is an inherited member, `?? []` keeps it, it is assigned
back, and `.push` is not a function: with a callback the call throws, without
one the returned promise is rejected, in both cases before anything is queued
or granted (`.error`; the tables read as before).  Otherwise the call is
`Manager.getLock`. -/
def Manager.getLockAt (uuid4 : Nat → String) (s : Manager) (p : String) (callback : Arg) :
    Except String (Manager × Ret) :=
  match s.lockRequestQueues.read p with
  | .inherited _ => .error pushIsNotAFunction
  | _ => .ok (s.getLock uuid4 (.str p) callback)

/-- The method `listen(key, callback)` for the string key `p`.  With a function,
when `listeners[p]` is an inherited member, `?? []` keeps it and `.push` is not
a function: the call throws and nothing is appended (the tables read as
before).  Otherwise the call is `Manager.listen`. -/
def Manager.listenAt (s : Manager) (p : String) (callback : Arg) : Manager × Except String Unit :=
  match callback, s.listeners.read p with
  | .fn _, .inherited _ => (s, .error pushIsNotAFunction)
  | _, _ => s.listen (.str p) callback

/-! ## Lemmas on traces and the lock invariant -/

theorem holders_append (held : Dict String) (a b : List Event) :
    holders held (a ++ b) = holders (holders held a) b := by
  induction a generalizing held with
  | nil => rfl
  | cons e a ih => cases e <;> simp [holders, ih]

theorem exclusive_append (held : Dict String) (a b : List Event) :
    exclusive held (a ++ b) = (exclusive held a && exclusive (holders held a) b) := by
  induction a generalizing held with
  | nil => simp [exclusive, holders]
  | cons e a ih => cases e <;> simp [exclusive, holders, ih, Bool.and_assoc]

theorem lockFree_of_nonempty {held : Option String} (h : ∀ t, held = some t → t ≠ "")
    (hf : lockFree held = true) : held = none := by
  cases held with
  | none => rfl
  | some t => simp [lockFree] at hf; exact absurd hf (h t rfl)

theorem lockInv_handleLockRequest {uuid4 : Nat → String} (hne : ∀ n, uuid4 n ≠ "")
    {s : Manager} (h : LockInv s) (key : Key) : LockInv (s.handleLockRequest uuid4 key) := by
  unfold Manager.handleLockRequest
  split
  · rename_i callback rest hfree hq
    have hnone := lockFree_of_nonempty (h.nonempty _) hfree
    refine ⟨?_, ?_, ?_⟩
    · simp [exclusive_append, h.excl, exclusive, h.held, hnone]
    · simp [holders_append, h.held, holders]
    · intro p t
      simp only [Dict.assign]
      split
      · intro ht; cases ht; exact hne _
      · exact h.nonempty p t
  · exact h

theorem lockInv_of_eq {s s2 : Manager} (h : LockInv s) (ht : s2.trace = s.trace)
    (hl : s2.locks = s.locks) : LockInv s2 :=
  ⟨ht ▸ h.excl, by rw [ht, hl]; exact h.held, by rw [hl]; exact h.nonempty⟩

theorem lockInv_enqueue {uuid4 : Nat → String} (hne : ∀ n, uuid4 n ≠ "")
    {s : Manager} (h : LockInv s) (key : Key) (f : Fn) : LockInv (s.enqueue uuid4 key f) := by
  unfold Manager.enqueue
  apply lockInv_handleLockRequest hne
  exact lockInv_of_eq h rfl rfl

theorem lockInv_called {s : Manager} (h : LockInv s) (f : Fn) (v : JSValue) :
    LockInv (s.emit (.called f v)) := by
  refine ⟨?_, ?_, h.nonempty⟩
  · simp [Manager.emit, exclusive_append, h.excl, exclusive]
  · simp [Manager.emit, holders_append, h.held, holders]

theorem lockInv_release {uuid4 : Nat → String} (hne : ∀ n, uuid4 n ≠ "")
    {s : Manager} (h : LockInv s) (key : Key) (lockId : JSValue) :
    LockInv (s.release uuid4 key lockId).1 := by
  unfold Manager.release
  split
  · rename_i hm
    refine lockInv_handleLockRequest hne ⟨?_, ?_, ?_⟩ key
    · simp [exclusive_append, h.excl, exclusive, h.held, hm]
    · simp [holders_append, h.held, holders]
    · intro p t
      simp only [Dict.delete]
      split
      · intro ht; cases ht
      · exact h.nonempty p t
  · exact h

theorem lockInv_getLock {uuid4 : Nat → String} (hne : ∀ n, uuid4 n ≠ "")
    {s : Manager} (h : LockInv s) (key : Key) (callback : Arg) :
    LockInv (s.getLock uuid4 key callback).1 := by
  unfold Manager.getLock
  cases callback with
  | fn f =>
    apply lockInv_enqueue hne
    exact lockInv_of_eq (lockInv_enqueue hne h key f) rfl rfl
  | val v =>
    apply lockInv_enqueue hne
    exact lockInv_of_eq h rfl rfl

theorem lockInv_releaseLock {uuid4 : Nat → String} (hne : ∀ n, uuid4 n ≠ "")
    {s : Manager} (h : LockInv s) (key : Key) (lockId : JSValue) (callback : Arg) :
    LockInv (s.releaseLock uuid4 key lockId callback).1 := by
  unfold Manager.releaseLock
  cases callback with
  | fn f => exact lockInv_release hne (lockInv_called (lockInv_release hne h key lockId) _ _) _ _
  | val v => exact lockInv_release hne h _ _

theorem lockInv_lockCalls {uuid4 : Nat → String} (hne : ∀ n, uuid4 n ≠ "")
    (calls : List LockCall) {s : Manager} (h : LockInv s) :
    LockInv (s.lockCalls uuid4 calls) := by
  induction calls generalizing s with
  | nil => exact h
  | cons c calls ih =>
    simp only [Manager.lockCalls, List.foldl_cons]
    apply ih
    cases c with
    | getLock key callback => exact lockInv_getLock hne h key callback
    | releaseLock key lockId callback => exact lockInv_releaseLock hne h key lockId callback

theorem lockInv_init (workers : Nat → WorkerStatus) : LockInv (Manager.init workers) :=
  ⟨rfl, rfl, fun _ _ h => by simp [Manager.init, Dict.empty] at h⟩

theorem lockIdMatches_some {lockId : JSValue} {t : String}
    (h : lockIdMatches lockId (some t) = true) : lockId = .string t := by
  cases lockId <;> simp [lockIdMatches] at h
  rw [h]

theorem released_before_next_grant (p : String) (t : String) (w : Fn) (t2 : String) :
    ∀ (b : List Event) (held : Dict String), exclusive held b = true → held p = some t →
      Event.granted p w t2 ∈ b → Event.released p (.string t) ∈ b := by
  intro b
  induction b with
  | nil => intro _ _ _ h; simp at h
  | cons e b ih =>
    intro held hex hh hmem
    cases e with
    | granted q w1 t1 =>
      simp only [exclusive, Bool.and_eq_true] at hex
      by_cases hq : q = p
      · subst hq; rw [hh] at hex; simp at hex
      · have hmem2 : Event.granted p w t2 ∈ b := by
          rcases List.mem_cons.1 hmem with h1 | h1
          · injection h1 with h1 _ _; exact absurd h1.symm hq
          · exact h1
        exact List.mem_cons_of_mem _
          (ih _ hex.2 (by simp [Dict.assign, Ne.symm hq, hh]) hmem2)
    | released q lockId =>
      simp only [exclusive, Bool.and_eq_true] at hex
      by_cases hq : q = p
      · subst hq; rw [hh] at hex
        rw [lockIdMatches_some hex.1]; exact List.mem_cons_self _ _
      · have hmem2 : Event.granted p w t2 ∈ b := by
          rcases List.mem_cons.1 hmem with h1 | h1
          · cases h1
          · exact h1
        exact List.mem_cons_of_mem _
          (ih _ hex.2 (by simp [Dict.delete, Ne.symm hq, hh]) hmem2)
    | called f v =>
      have hmem2 : Event.granted p w t2 ∈ b := by
        rcases List.mem_cons.1 hmem with h1 | h1
        · cases h1
        · exact h1
      exact List.mem_cons_of_mem _ (ih _ hex hh hmem2)
    | sent f v =>
      have hmem2 : Event.granted p w t2 ∈ b := by
        rcases List.mem_cons.1 hmem with h1 | h1
        · cases h1
        · exact h1
      exact List.mem_cons_of_mem _ (ih _ hex hh hmem2)
    | logged f =>
      have hmem2 : Event.granted p w t2 ∈ b := by
        rcases List.mem_cons.1 hmem with h1 | h1
        · cases h1
        · exact h1
      exact List.mem_cons_of_mem _ (ih _ hex hh hmem2)

/-! ## C1: mutual exclusion -/

/-- C1. Mutual exclusion: in the state reached from the initial state by any
sequence of `getLock` and `releaseLock` calls (any keys, any arguments, with or
without callback), when `uuid4` never returns the empty string: the trace is
exclusive (a waiter is handed a token for a key only while that key has no
outstanding token); the outstanding tokens of the trace are exactly the lock
table, so a token handed out is the one recorded in `locks[key]`; and between a
grant of token `t` on a key and any later grant on that key, `delete locks[key]`
was executed by a `releaseLock` called with `t`. -/
theorem mutual_exclusion (uuid4 : Nat → String) (hne : ∀ n, uuid4 n ≠ "")
    (workers : Nat → WorkerStatus) (calls : List LockCall) :
    exclusive Dict.empty ((Manager.init workers).lockCalls uuid4 calls).trace = true ∧
    holders Dict.empty ((Manager.init workers).lockCalls uuid4 calls).trace =
      ((Manager.init workers).lockCalls uuid4 calls).locks ∧
    ∀ (p : String) (a b : List Event) (w w2 : Fn) (t t2 : String),
      ((Manager.init workers).lockCalls uuid4 calls).trace = a ++ Event.granted p w t :: b →
      Event.granted p w2 t2 ∈ b → Event.released p (.string t) ∈ b := by
  have h := lockInv_lockCalls hne calls (lockInv_init workers)
  refine ⟨h.excl, h.held, ?_⟩
  intro p a b w w2 t t2 htr hmem
  have hex := h.excl
  rw [htr, exclusive_append] at hex
  simp only [exclusive, Bool.and_eq_true] at hex
  exact released_before_next_grant p t w2 t2 b _ hex.2.2 (by simp [Dict.assign]) hmem

theorem sampleUuid4_ne (n : Nat) : sampleUuid4 n ≠ "" := by
  intro h
  have := congrArg String.length h
  simp [sampleUuid4, String.length] at this

theorem sampleUuid4_injective : Function.Injective sampleUuid4 := by
  intro a b h
  have := congrArg String.length h
  simpa [sampleUuid4, String.length] using this

/-- Witness of C1 on two requests for one key followed by a release. -/
theorem mutual_exclusion_witness :
    (∀ n, sampleUuid4 n ≠ "") ∧
    exclusive Dict.empty ((Manager.init sampleWorkers).lockCalls sampleUuid4
      [.getLock (.str "k") (.val .undefined), .getLock (.str "k") (.fn (.user 7)),
       .releaseLock (.str "k") (.string "u") (.val .undefined)]).trace = true :=
  ⟨sampleUuid4_ne, (mutual_exclusion sampleUuid4 sampleUuid4_ne sampleWorkers _).1⟩

/-! ## C2: FIFO grant order -/

theorem grants_append (p : String) (a b : List Event) :
    grants p (a ++ b) = grants p a ++ grants p b := by
  induction a with
  | nil => rfl
  | cons e a ih => cases e <;> simp [grants, ih]; split <;> simp

/-- The waiters served and waiting on key `p`, in order. -/
theorem handleLockRequest_order (uuid4 : Nat → String) (s : Manager) (key : Key) (p : String) :
    (grants p (s.handleLockRequest uuid4 key).trace).map Prod.fst ++
        ((s.handleLockRequest uuid4 key).lockRequestQueues p).getD [] =
      (grants p s.trace).map Prod.fst ++ (s.lockRequestQueues p).getD [] := by
  unfold Manager.handleLockRequest
  split
  · rename_i callback rest hfree hq
    by_cases hp : key.toPropertyKey = p
    · subst hp
      simp [grants_append, grants, Dict.assign, hq]
    · have hp2 : ¬ p = key.toPropertyKey := fun h => hp h.symm
      simp [grants_append, grants, Dict.assign, hp, hp2]
  · rfl

theorem handleLockRequest_promises (uuid4 : Nat → String) (s : Manager) (key : Key) :
    (s.handleLockRequest uuid4 key).promises = s.promises := by
  unfold Manager.handleLockRequest
  split <;> rfl

theorem enqueue_order (uuid4 : Nat → String) (s : Manager) (key : Key) (f : Fn) (p : String) :
    (grants p (s.enqueue uuid4 key f).trace).map Prod.fst ++
        ((s.enqueue uuid4 key f).lockRequestQueues p).getD [] =
      (grants p s.trace).map Prod.fst ++ (s.lockRequestQueues p).getD [] ++
        (if key.toPropertyKey = p then [f] else []) := by
  unfold Manager.enqueue
  rw [handleLockRequest_order]
  by_cases hp : key.toPropertyKey = p
  · subst hp; simp [Dict.assign]
  · have hp2 : ¬ p = key.toPropertyKey := fun h => hp h.symm
    simp [Dict.assign, hp, hp2]

theorem enqueue_promises (uuid4 : Nat → String) (s : Manager) (key : Key) (f : Fn) :
    (s.enqueue uuid4 key f).promises = s.promises := by
  unfold Manager.enqueue
  rw [handleLockRequest_promises]

theorem release_order (uuid4 : Nat → String) (s : Manager) (key : Key) (lockId : JSValue)
    (p : String) :
    (grants p (s.release uuid4 key lockId).1.trace).map Prod.fst ++
        ((s.release uuid4 key lockId).1.lockRequestQueues p).getD [] =
      (grants p s.trace).map Prod.fst ++ (s.lockRequestQueues p).getD [] := by
  unfold Manager.release
  split
  · simp only [handleLockRequest_order]
    simp [grants_append, grants]
  · rfl

theorem lockCall_order (uuid4 : Nat → String) (s : Manager) (c : LockCall) (p : String) :
    (grants p (s.lockCall uuid4 c).trace).map Prod.fst ++
        ((s.lockCall uuid4 c).lockRequestQueues p).getD [] =
      (grants p s.trace).map Prod.fst ++ (s.lockRequestQueues p).getD [] ++
        c.requesters s p := by
  cases c with
  | getLock key callback =>
    cases callback with
    | fn f =>
      simp only [Manager.lockCall, Manager.getLock, LockCall.requesters]
      rw [enqueue_order, enqueue_promises]
      have h := enqueue_order uuid4 s key f p
      simp only [] at h ⊢
      rw [h]
      split <;> simp
    | val v =>
      simp only [Manager.lockCall, Manager.getLock, LockCall.requesters]
      rw [enqueue_order]
      split <;> simp
  | releaseLock key lockId callback =>
    cases callback with
    | fn f =>
      simp only [Manager.lockCall, Manager.releaseLock, LockCall.requesters]
      rw [release_order]
      simp only [Manager.emit, grants_append, grants, List.append_nil, List.map_append]
      simpa using release_order uuid4 s key lockId p
    | val v =>
      simp only [Manager.lockCall, Manager.releaseLock, LockCall.requesters]
      rw [release_order]; simp

theorem lockCalls_order (uuid4 : Nat → String) (calls : List LockCall) (s : Manager)
    (p : String) :
    (grants p (s.lockCalls uuid4 calls).trace).map Prod.fst ++
        ((s.lockCalls uuid4 calls).lockRequestQueues p).getD [] =
      (grants p s.trace).map Prod.fst ++ (s.lockRequestQueues p).getD [] ++
        s.requesters uuid4 p calls := by
  induction calls generalizing s with
  | nil => simp [Manager.lockCalls, Manager.requesters]
  | cons c calls ih =>
    have h := ih (s.lockCall uuid4 c)
    simp only [Manager.lockCalls, List.foldl_cons, Manager.requesters] at h ⊢
    rw [h, lockCall_order]
    simp

theorem lockCalls_append (uuid4 : Nat → String) (s : Manager) (a b : List LockCall) :
    s.lockCalls uuid4 (a ++ b) = (s.lockCalls uuid4 a).lockCalls uuid4 b := by
  simp [Manager.lockCalls, List.foldl_append]

theorem serving_first {uuid4 : Nat → String} {s0 : Manager} {key : Key}
    (hl : s0.locks key.toPropertyKey = none)
    (hq : (s0.lockRequestQueues key.toPropertyKey).getD [] = []) :
    Serving uuid4 s0 key.toPropertyKey 1 0 (s0.getLock uuid4 key (.val .undefined)).1 := by
  simp only [Manager.getLock, Manager.enqueue, Manager.handleLockRequest, hl, hq, lockFree,
    Dict.assign, if_true, List.nil_append]
  refine ⟨by omega, ?_, ?_, ?_, ?_, ?_⟩ <;> simp [Dict.assign, grants_append, SharedMemory.grants, List.range_succ]

theorem serving_next {uuid4 : Nat → String} (hne : ∀ n, uuid4 n ≠ "") {s0 s : Manager}
    {key : Key} {n i : Nat} (h : Serving uuid4 s0 key.toPropertyKey n i s) :
    Serving uuid4 s0 key.toPropertyKey (n + 1) i (s.getLock uuid4 key (.val .undefined)).1 := by
  have hlt := h.lt
  have hfree : lockFree (some (uuid4 (s0.uuidCalls + i))) = false := by
    simp [lockFree, hne]
  simp only [Manager.getLock, Manager.enqueue, Manager.handleLockRequest, h.locks, hfree]
  refine ⟨by omega, h.locks, ?_, h.uuidCalls, ?_, h.grants⟩
  · simp only [Dict.assign, if_true, h.queue, Option.getD_some, h.promises]
    have e : n + 1 - (i + 1) = (n - (i + 1)) + 1 := by omega
    rw [e, List.range'_concat]
    simp
    omega
  · simp [h.promises]; omega

theorem serving_release {uuid4 : Nat → String} {s0 s : Manager}
    {key : Key} {n i : Nat} (h : Serving uuid4 s0 key.toPropertyKey n i s) (hi : i + 1 < n) :
    Serving uuid4 s0 key.toPropertyKey n (i + 1)
      (s.releaseLock uuid4 key (.string (uuid4 (s0.uuidCalls + i))) (.val .undefined)).1 := by
  have e : n - (i + 1) = (n - (i + 1 + 1)) + 1 := by omega
  have hq := h.queue
  rw [e, List.range'_succ, List.map_cons] at hq
  simp only [Manager.releaseLock, Manager.release, h.locks, lockIdMatches, beq_self_eq_true,
    if_true, Manager.handleLockRequest, Dict.delete, lockFree, hq]
  refine ⟨hi, ?_, ?_, ?_, h.promises, ?_⟩
  · simp [Dict.assign, h.uuidCalls]
  · simp [Dict.assign]
  · simp [h.uuidCalls]; omega
  · simp [grants_append, SharedMemory.grants, h.grants, List.range_succ (i + 1), h.uuidCalls]

theorem serving_releaseLast {uuid4 : Nat → String} {s0 s : Manager}
    {key : Key} {n i : Nat} (h : Serving uuid4 s0 key.toPropertyKey n i s) (hi : i + 1 = n) :
    SharedMemory.grants key.toPropertyKey
      (s.releaseLock uuid4 key (.string (uuid4 (s0.uuidCalls + i))) (.val .undefined)).1.trace =
      SharedMemory.grants key.toPropertyKey s0.trace ++ (List.range n).map
        (fun j => (Fn.resolve (s0.promises + j), uuid4 (s0.uuidCalls + j))) := by
  have e : n - (i + 1) = 0 := by omega
  have hq := h.queue
  rw [e] at hq
  simp only [List.range'_zero, List.map_nil] at hq
  simp only [Manager.releaseLock, Manager.release, h.locks, lockIdMatches, beq_self_eq_true,
    if_true, Manager.handleLockRequest, Dict.delete, lockFree, hq]
  simp [grants_append, SharedMemory.grants, h.grants, hi]

theorem serving_acquired {uuid4 : Nat → String} (hne : ∀ n, uuid4 n ≠ "") {s0 : Manager}
    {key : Key} (hl : s0.locks key.toPropertyKey = none)
    (hq : (s0.lockRequestQueues key.toPropertyKey).getD [] = []) (n : Nat) :
    Serving uuid4 s0 key.toPropertyKey (n + 1) 0
      (s0.lockCalls uuid4 (List.replicate (n + 1) (.getLock key (.val .undefined)))) := by
  induction n with
  | zero => exact serving_first hl hq
  | succ n ih =>
    rw [List.replicate_succ', lockCalls_append]
    exact serving_next hne ih

theorem serving_releases {uuid4 : Nat → String} {s0 s : Manager}
    {key : Key} {n : Nat} (h : Serving uuid4 s0 key.toPropertyKey n 0 s) (m : Nat) (hm : m < n) :
    Serving uuid4 s0 key.toPropertyKey n m
      (s.lockCalls uuid4 ((List.range m).map (fun i =>
        LockCall.releaseLock key (.string (uuid4 (s0.uuidCalls + i))) (.val .undefined)))) := by
  induction m with
  | zero => exact h
  | succ m ih =>
    rw [List.range_succ, List.map_append, lockCalls_append]
    exact serving_release (ih (by omega)) hm

theorem fifo_scenario (uuid4 : Nat → String) (hne : ∀ n, uuid4 n ≠ "") (s0 : Manager)
    (key : Key) (hl : s0.locks key.toPropertyKey = none)
    (hq : (s0.lockRequestQueues key.toPropertyKey).getD [] = []) (n m : Nat) (hm : m ≤ n) :
    SharedMemory.grants key.toPropertyKey
        (s0.lockCalls uuid4 (fifoScenario uuid4 s0.uuidCalls key n m)).trace =
      SharedMemory.grants key.toPropertyKey s0.trace ++ (List.range (min n (m + 1))).map
        (fun j => (Fn.resolve (s0.promises + j), uuid4 (s0.uuidCalls + j))) := by
  cases n with
  | zero =>
    have : m = 0 := by omega
    subst this
    simp [fifoScenario, Manager.lockCalls]
  | succ n =>
    have ha := serving_acquired hne hl hq n
    unfold fifoScenario
    rw [lockCalls_append]
    rcases Nat.lt_or_ge m (n + 1) with h1 | h1
    · have := (serving_releases ha m h1).grants
      rw [this, Nat.min_eq_right (by omega)]
    · have hmn : m = n + 1 := by omega
      subst hmn
      rw [List.range_succ, List.map_append, lockCalls_append]
      have := serving_releaseLast (serving_releases ha n (by omega)) rfl
      simpa [Manager.lockCalls] using this

theorem read_ordinary {α : Type} (d : Dict α) (p : String) (hp : (Key.str p).ordinary = true) :
    d.read p = match d p with
      | some a => .own a
      | none => .undefined := by
  have h : p ∉ objectPrototypeNames := by
    simpa [Key.ordinary] using hp
  unfold Dict.read
  cases d p <;> simp [h]

theorem getLockAt_ordinary (uuid4 : Nat → String) (s : Manager) (p : String) (callback : Arg)
    (hp : (Key.str p).ordinary = true) :
    s.getLockAt uuid4 p callback = .ok (s.getLock uuid4 (.str p) callback) := by
  unfold Manager.getLockAt
  rw [read_ordinary _ p hp]
  cases s.lockRequestQueues p <;> rfl

theorem listenAt_ordinary (s : Manager) (p : String) (callback : Arg)
    (hp : (Key.str p).ordinary = true) : s.listenAt p callback = s.listen (.str p) callback := by
  unfold Manager.listenAt
  rw [read_ordinary _ p hp]
  cases callback <;> cases s.listeners p <;> rfl

/-- C2 (the code at the failing input, and the claim for ordinary keys).  On a
new coordinator `getLock('constructor')`, with or without callback, fails with
the `TypeError` of `.push`, so no requester of that key is ever granted; for an
ordinary string key the call is the one modelled by `Manager.getLock`.
FIFO grant order for ordinary keys: from any state in which an ordinary
key is idle, after `n` calls `getLock(key)` followed by `m ≤ n` calls
`releaseLock(key, token)` that pass the granted tokens in turn, the grants made
on the key are exactly the first `min n (m + 1)` requesters in request order:
grant `i` goes to the promise returned by request `i`.  And for every sequence
of lock calls on ordinary keys from the initial state and every ordinary key,
the waiters granted so far followed by the waiters still queued are the
requesters in call order, so no requester is granted before an earlier one. -/
theorem fifo_grant_order (uuid4 : Nat → String) (hne : ∀ n, uuid4 n ≠ "") (s0 : Manager)
    (key : Key) (_hkey : key.ordinary = true) (hl : s0.locks key.toPropertyKey = none)
    (hq : (s0.lockRequestQueues key.toPropertyKey).getD [] = []) (n m : Nat) (hm : m ≤ n) :
    (∀ (workers : Nat → WorkerStatus) (callback : Arg),
      (Manager.init workers).getLockAt uuid4 "constructor" callback =
        .error pushIsNotAFunction) ∧
    (∀ (s : Manager) (p : String) (callback : Arg), (Key.str p).ordinary = true →
      s.getLockAt uuid4 p callback = .ok (s.getLock uuid4 (.str p) callback)) ∧
    grants key.toPropertyKey
        (s0.lockCalls uuid4 (fifoScenario uuid4 s0.uuidCalls key n m)).trace =
      grants key.toPropertyKey s0.trace ++ (List.range (min n (m + 1))).map
        (fun j => (Fn.resolve (s0.promises + j), uuid4 (s0.uuidCalls + j))) ∧
    ∀ (workers : Nat → WorkerStatus) (calls : List LockCall) (k : Key),
      (∀ c ∈ calls, c.key.ordinary = true) → k.ordinary = true →
      (grants k.toPropertyKey ((Manager.init workers).lockCalls uuid4 calls).trace).map
            Prod.fst ++
          (((Manager.init workers).lockCalls uuid4 calls).lockRequestQueues
            k.toPropertyKey).getD [] =
        (Manager.init workers).requesters uuid4 k.toPropertyKey calls := by
  refine ⟨fun _ _ => rfl, getLockAt_ordinary uuid4, fifo_scenario uuid4 hne s0 key hl hq n m hm,
    ?_⟩
  intro workers calls k _ _
  rw [lockCalls_order]
  simp [Manager.init, grants, Dict.empty]

/-- Witness of C2: three requests and two releases on `"k"` from the initial state. -/
theorem fifo_grant_order_witness :
    (Key.str "k").ordinary = true ∧ (2 ≤ 3) ∧
    grants "k" ((Manager.init sampleWorkers).lockCalls sampleUuid4
      (fifoScenario sampleUuid4 0 (.str "k") 3 2)).trace =
      [(Fn.resolve 0, "u"), (Fn.resolve 1, "uu"), (Fn.resolve 2, "uuu")] :=
  ⟨by decide, by decide, (fifo_grant_order sampleUuid4 sampleUuid4_ne (Manager.init sampleWorkers)
    (.str "k") (by decide) rfl rfl 3 2 (by decide)).2.2.1⟩

/-! ## C3: release with a wrong token -/

theorem lockMismatch_ne_ok (key : Key) (lockId : JSValue) : lockMismatch key lockId ≠ "OK" := by
  intro h
  have h2 := congrArg String.length h
  have e1 : "Failed. LockId:".length = 15 := by decide
  have e2 : "OK".length = 2 := by decide
  simp only [lockMismatch, String.length_append, e1, e2] at h2
  omega

theorem lockIdMatches_wrong {lockId : JSValue} {t : String} (h : lockId ≠ .string t) :
    lockIdMatches lockId (some t) = false := by
  cases lockId <;> simp [lockIdMatches]
  intro e; exact h (by rw [e])

/-- C3. Release with a wrong token: when `key` is held with token `t` and
`lockId` is any value other than `t`, `releaseLock(key, lockId)` leaves the
lock table and every wait queue unchanged, grants nobody (no grant is added to
the trace for any key; without a callback the whole state is unchanged), and
resolves with the text `Failed. LockId:<lockId> does not match <key>'s lockId.`,
which is not `OK`. -/
theorem release_wrong_token (uuid4 : Nat → String) (s : Manager) (key : Key) (t : String)
    (lockId : JSValue) (callback : Arg) (hheld : s.locks key.toPropertyKey = some t)
    (hwrong : lockId ≠ .string t) :
    (s.releaseLock uuid4 key lockId callback).1.locks = s.locks ∧
    (s.releaseLock uuid4 key lockId callback).1.lockRequestQueues = s.lockRequestQueues ∧
    (∀ p, grants p (s.releaseLock uuid4 key lockId callback).1.trace = grants p s.trace) ∧
    (callback.isFunction = false → (s.releaseLock uuid4 key lockId callback).1 = s) ∧
    (s.releaseLock uuid4 key lockId callback).2 = .resolved (.string
      ("Failed. LockId:" ++ lockId.toJSString ++ " does not match " ++ key.toPropertyKey ++
        "'s lockId.")) ∧
    (s.releaseLock uuid4 key lockId callback).2 ≠ .resolved (.string "OK") := by
  have hm := lockIdMatches_wrong hwrong
  have hne := lockMismatch_ne_ok key lockId
  cases callback with
  | fn f =>
    simp [Manager.releaseLock, Manager.release, hheld, hm, Manager.emit, grants_append, grants,
      Arg.isFunction]
    exact ⟨rfl, hne⟩
  | val v =>
    simp [Manager.releaseLock, Manager.release, hheld, hm]
    exact ⟨rfl, hne⟩

/-- Witness of C3: `"k"` is held with `"u"`, a stale `"x"` is passed. -/
theorem release_wrong_token_witness :
    ((Manager.init sampleWorkers).getLock sampleUuid4 (.str "k") (.val .undefined)).1.locks
      (Key.str "k").toPropertyKey = some "u" ∧
    (((Manager.init sampleWorkers).getLock sampleUuid4 (.str "k") (.val .undefined)).1.releaseLock
      sampleUuid4 (.str "k") (.string "x") (.val .undefined)).2 =
      .resolved (.string "Failed. LockId:x does not match k's lockId.") :=
  ⟨rfl, (release_wrong_token sampleUuid4 _ (.str "k") "u" (.string "x") (.val .undefined) rfl
    (by decide)).2.2.2.2.1⟩

/-! ## C4: release on a key that nobody holds -/

/-- C4 (the code at the failing input). From the initial state, where no key has
a holder, `releaseLock(key)` with `lockId` omitted (`undefined`) resolves with
`OK`, because `undefined === locks[key]` holds when `locks[key]` is absent.  The
same call is made by the dispatcher for a `releaseLock` request whose value is
the empty string, which it drops from the argument list.  With a non-empty
string as `lockId` passed directly the call is answered with the mismatch
text. -/
theorem release_unheld_undefined_ok (uuid4 : Nat → String) (workers : Nat → WorkerStatus)
    (key : Key) (t : String) :
    ((Manager.init workers).releaseLock uuid4 key .undefined (.val .undefined)).2 =
      .resolved (.string "OK") ∧
    ((Manager.init workers).releaseLock uuid4 (Manager.handleArgs key (.string "")).1
      (Manager.handleArgs key (.string "")).2 (.val .undefined)).2 = .resolved (.string "OK") ∧
    ((Manager.init workers).releaseLock uuid4 key (.string t) (.val .undefined)).2 =
      .resolved (.string (lockMismatch key (.string t))) := by
  simp [Manager.releaseLock, Manager.release, Manager.init, Dict.empty, lockIdMatches,
    Manager.handleArgs, JSValue.truthy]

/-! ## C5: grant on release -/

/-- C5. Grant-on-release: when `key` is held with a token `t` minted earlier,
its queue is `w :: rest`, and `uuid4` is injective and never empty, then
`releaseLock(key, t)` resolves `OK` and in that call deletes the holder, removes
`w` from the queue leaving `rest`, mints a token different from `t`, records it
in `locks[key]` and calls `w` with it (the trace grows by the release and that
grant only); a `getLock(key)` made right after is put behind `rest` and is not
granted: lock table and trace stay as they are. -/
theorem grant_on_release (uuid4 : Nat → String) (hinj : Function.Injective uuid4)
    (hne : ∀ n, uuid4 n ≠ "") (s : Manager) (key : Key) (t : String) (w : Fn) (rest : List Fn)
    (hminted : ∃ i, i < s.uuidCalls ∧ uuid4 i = t)
    (hheld : s.locks key.toPropertyKey = some t)
    (hqueue : s.lockRequestQueues key.toPropertyKey = some (w :: rest)) :
    (s.releaseLock uuid4 key (.string t) (.val .undefined)).2 = .resolved (.string "OK") ∧
    (s.releaseLock uuid4 key (.string t) (.val .undefined)).1.lockRequestQueues
      key.toPropertyKey = some rest ∧
    (s.releaseLock uuid4 key (.string t) (.val .undefined)).1.locks key.toPropertyKey =
      some (uuid4 s.uuidCalls) ∧
    uuid4 s.uuidCalls ≠ t ∧
    (s.releaseLock uuid4 key (.string t) (.val .undefined)).1.trace =
      s.trace ++ [.released key.toPropertyKey (.string t),
        .granted key.toPropertyKey w (uuid4 s.uuidCalls)] ∧
    (((s.releaseLock uuid4 key (.string t) (.val .undefined)).1.getLock uuid4 key
        (.val .undefined)).1.lockRequestQueues key.toPropertyKey =
      some (rest ++ [.resolve s.promises])) ∧
    (((s.releaseLock uuid4 key (.string t) (.val .undefined)).1.getLock uuid4 key
        (.val .undefined)).1.locks =
      (s.releaseLock uuid4 key (.string t) (.val .undefined)).1.locks) ∧
    (((s.releaseLock uuid4 key (.string t) (.val .undefined)).1.getLock uuid4 key
        (.val .undefined)).1.trace =
      (s.releaseLock uuid4 key (.string t) (.val .undefined)).1.trace) := by
  have hfresh : uuid4 s.uuidCalls ≠ t := by
    obtain ⟨i, hi, rfl⟩ := hminted
    intro h
    have := hinj h
    omega
  have hfree : (uuid4 s.uuidCalls == "") = false := by simp [hne]
  simp [Manager.releaseLock, Manager.release, hheld, lockIdMatches, Manager.handleLockRequest,
    Dict.delete, lockFree, hqueue, Dict.assign, hfresh, Manager.getLock, Manager.enqueue, hfree]

/-- Witness of C5: `"k"` held with `"u"`, one waiter queued. -/
theorem grant_on_release_witness :
    (((Manager.init sampleWorkers).lockCalls sampleUuid4
        [.getLock (.str "k") (.val .undefined), .getLock (.str "k") (.val .undefined)]).releaseLock
      sampleUuid4 (.str "k") (.string "u") (.val .undefined)).1.locks (Key.str "k").toPropertyKey =
      some (sampleUuid4 1) :=
  (grant_on_release sampleUuid4 sampleUuid4_injective sampleUuid4_ne
    ((Manager.init sampleWorkers).lockCalls sampleUuid4
      [.getLock (.str "k") (.val .undefined), .getLock (.str "k") (.val .undefined)])
    (.str "k") "u" (.resolve 1) [] ⟨0, by decide, rfl⟩ rfl rfl).2.2.1

/-! ## C6: mutex -/

/-- C6 (the code at the failing input). From the initial state, `mutex(key, func)`
with a body that throws is rejected with the error of the body and leaves `key`
held by the token that `mutex` acquired: `releaseLock` is not reached.  With a
body that returns `v`, the same call resolves to `v` and leaves `key` without
holder. -/
theorem mutex_body_failure_keeps_lock (uuid4 : Nat → String) (workers : Nat → WorkerStatus)
    (key : Key) (error v : JSValue) :
    ((Manager.init workers).mutex uuid4 key (fun s => (s, .threw error))).2 =
      some (.threw error) ∧
    ((Manager.init workers).mutex uuid4 key (fun s => (s, .threw error))).1.locks
      key.toPropertyKey = some (uuid4 0) ∧
    ((Manager.init workers).mutex uuid4 key (fun s => (s, .returned v))).2 =
      some (.returned v) ∧
    ((Manager.init workers).mutex uuid4 key (fun s => (s, .returned v))).1.locks
      key.toPropertyKey = none := by
  simp [Manager.mutex, Manager.getLock, Manager.enqueue, Manager.handleLockRequest, Manager.init,
    Dict.empty, Dict.assign, lockFree, resolution, Manager.mutexBody, Manager.releaseLock,
    Manager.release, lockIdMatches, Dict.delete]

/-! ## The primary store is not touched by notifications -/

theorem removeListener_memory (s : Manager) (key : Key) (f : Fn) :
    (s.removeListener key f).memory = s.memory := by
  unfold Manager.removeListener
  split
  · split <;> rfl
  · rfl

theorem callListener_memory (s : Manager) (f : Fn) (v : JSValue) :
    (s.callListener f v).memory = s.memory := by
  unfold Manager.callListener
  split
  · split
    · split <;> rfl
    · split
      · exact removeListener_memory _ _ _
      · rfl
  · rfl

theorem mapListeners_memory (p : String) (v : JSValue) (n k : Nat) (s : Manager) :
    (Manager.mapListeners p v n k s).memory = s.memory := by
  induction n generalizing k s with
  | zero => rfl
  | succ n ih =>
    simp only [Manager.mapListeners]
    split
    · rw [ih, callListener_memory]
    · rw [ih]

theorem notifyListener_memory (s : Manager) (key : Key) :
    (s.notifyListener key).memory = s.memory := by
  unfold Manager.notifyListener
  split
  · exact mapListeners_memory _ _ _ _ _
  · rfl

theorem store_memory (s : Manager) (key : Key) (v : JSValue) :
    (s.store key v).memory = s.memory.assign key.toPropertyKey v := by
  simp [Manager.store, notifyListener_memory]

theorem unstore_memory (s : Manager) (key : Key) :
    (s.unstore key).memory = s.memory.delete key.toPropertyKey := by
  simp [Manager.unstore, notifyListener_memory]

/-! ## C7: read after write -/

/-- C7 (counterexample). With the key `0`, or the empty string, `set(key, 5)`
returns `undefined` instead of a promise resolved with `OK`, and a following
`get(key)` resolves to `undefined`, not to `5`. -/
theorem set_falsy_key_not_stored :
    ((Manager.init sampleWorkers).set (.num 0) (.number 5) (.val .undefined)).2 = .undefined ∧
    (((Manager.init sampleWorkers).set (.num 0) (.number 5) (.val .undefined)).1.get (.num 0)
      (.val .undefined)).2 = .resolved .undefined ∧
    ((Manager.init sampleWorkers).set (.str "") (.number 5) (.val .undefined)).2 = .undefined ∧
    (((Manager.init sampleWorkers).set (.str "") (.number 5) (.val .undefined)).1.get (.str "")
      (.val .undefined)).2 = .resolved .undefined := by
  decide

/-- C7 (amended). Read-after-write for truthy ordinary keys: in every state, for
every ordinary key that is a non-empty string or a non-zero integer and every
value `v`, `set(key, v)` resolves with `OK` and a following `get(key)` resolves
to `v` (with or without callbacks). -/
theorem read_after_write (s : Manager) (key : Key) (v : JSValue) (cb1 cb2 : Arg)
    (hkey : key.truthy = true) (_hord : key.ordinary = true) :
    (s.set key v cb1).2 = .resolved (.string "OK") ∧
    ((s.set key v cb1).1.get key cb2).2 = .resolved v := by
  cases cb1 <;> cases cb2 <;>
    simp [Manager.set, hkey, Manager.get, Manager.memoryGet, store_memory, Manager.emit,
      Dict.assign]

/-- Witness of C7: the write of the demo, `set('requestTimes', 0)`. -/
theorem read_after_write_witness :
    (Key.str "requestTimes").truthy = true ∧ (Key.str "requestTimes").ordinary = true ∧
    (((Manager.init sampleWorkers).set (.str "requestTimes") (.number 0) (.val .undefined)).1.get
      (.str "requestTimes") (.val .undefined)).2 = .resolved (.number 0) :=
  ⟨by decide, by decide,
    (read_after_write (Manager.init sampleWorkers) (.str "requestTimes") (.number 0)
      (.val .undefined) (.val .undefined) (by decide) (by decide)).2⟩

/-! ## C8: remove -/

/-- C8 (the code at the failing input, and the claim for ordinary keys).  On a
new coordinator `get('toString')` resolves to the member of `Object.prototype`
of that name, not to `undefined`, and `delete` does not take it away.
Remove semantics for ordinary keys: in every state and for every ordinary
key, `remove(key)` resolves with `OK` and a following `get(key)` resolves to
`undefined`; in the initial state, and in any state where the key has no entry
in the store, `get(key)` resolves to `undefined` (with or without callbacks). -/
theorem remove_then_get (s : Manager) (key : Key) (cb1 cb2 : Arg)
    (workers : Nat → WorkerStatus) (_hord : key.ordinary = true) :
    (Manager.init workers).getAt "toString" = .inherited "toString" ∧
    Manager.getAt { (Manager.init workers) with
      memory := (Manager.init workers).memory.delete "toString" } "toString" =
        .inherited "toString" ∧
    (s.remove key cb1).2 = .resolved (.string "OK") ∧
    ((s.remove key cb1).1.get key cb2).2 = .resolved .undefined ∧
    ((Manager.init workers).get key cb2).2 = .resolved .undefined ∧
    (s.memory key.toPropertyKey = none → (s.get key cb2).2 = .resolved .undefined) := by
  refine ⟨rfl, rfl, ?_, ?_, ?_, ?_⟩
  · cases cb1 <;> simp [Manager.remove]
  · cases cb1 <;> cases cb2 <;>
      simp [Manager.remove, Manager.get, Manager.memoryGet, unstore_memory, Manager.emit,
        Dict.delete]
  · cases cb2 <;> simp [Manager.get, Manager.memoryGet, Manager.init, Dict.empty, Manager.emit]
  · intro h
    cases cb2 <;> simp [Manager.get, Manager.memoryGet, h, Manager.emit]

/-- Witness of C8: after `set('a', 1)` the key `'b'` has no entry. -/
theorem remove_then_get_witness :
    (Key.str "b").ordinary = true ∧
    ((Manager.init sampleWorkers).set (.str "a") (.number 1) (.val .undefined)).1.memory
      (Key.str "b").toPropertyKey = none ∧
    (((Manager.init sampleWorkers).set (.str "a") (.number 1) (.val .undefined)).1.get (.str "b")
      (.val .undefined)).2 = .resolved .undefined :=
  ⟨by decide, by decide, (remove_then_get _ (.str "b") (.val .undefined) (.val .undefined)
    sampleWorkers (by decide)).2.2.2.2.2 (by decide)⟩

/-! ## C9: delivery to a listener -/

theorem callsOf_append (f : Fn) (a b : List Event) :
    callsOf f (a ++ b) = callsOf f a ++ callsOf f b := by
  induction a with
  | nil => rfl
  | cons e a ih => cases e <;> simp [callsOf, ih]; split <;> simp

theorem removeListener_subscribed {workers : Nat → WorkerStatus} {p : String} {ls : List Fn}
    {c : Fn} {s : Manager} (h : Subscribed workers p ls c s) (key : Key) (f : Fn)
    (hf : f ∉ ls) : Subscribed workers p ls c (s.removeListener key f) := by
  unfold Manager.removeListener
  split
  · rename_i l hl
    split
    · rename_i hmem
      by_cases hp : key.toPropertyKey = p
      · rw [hp, h.here] at hl
        cases hl
        exact absurd hmem hf
      · refine ⟨h.status, ?_, ?_⟩
        · have hp2 : ¬ p = key.toPropertyKey := fun e => hp e.symm
          simp [Dict.assign, hp2, h.here]
        · intro q l2 hq
          simp only [Dict.assign]
          split
          · rename_i e
            intro h2 hc
            cases h2
            exact h.elsewhere _ l (by rw [← e]; exact hq) hl (List.mem_of_mem_erase hc)
          · exact h.elsewhere q l2 hq
    · exact h
  · exact h

theorem callListener_subscribed {workers : Nat → WorkerStatus} {p : String} {ls : List Fn}
    {c : Nat} {s : Manager} (h : Subscribed workers p ls (.user c) s)
    (hlive : ∀ f ∈ ls, prunable workers f = false) (f : Fn) (v : JSValue) :
    Subscribed workers p ls (.user c) (s.callListener f v) ∧
    callsOf (.user c) (s.callListener f v).trace =
      callsOf (.user c) s.trace ++ (if f = .user c then [v] else []) := by
  cases f with
  | user i =>
    refine ⟨⟨h.status, h.here, h.elsewhere⟩, ?_⟩
    simp [Manager.callListener, Manager.emit, callsOf_append, callsOf]
  | resolve i =>
    refine ⟨⟨h.status, h.here, h.elsewhere⟩, ?_⟩
    simp [Manager.callListener, Manager.emit, callsOf_append, callsOf]
  | listener cl target id uuid key =>
    simp only [Manager.callListener]
    split
    · split
      · exact ⟨⟨h.status, h.here, h.elsewhere⟩, by simp [Manager.emit, callsOf_append, callsOf]⟩
      · exact ⟨⟨h.status, h.here, h.elsewhere⟩, by simp [Manager.emit, callsOf_append, callsOf]⟩
    · rename_i hc
      split
      · rename_i hd
        have hnot : Fn.listener cl target id uuid key ∉ ls := by
          intro hmem
          have := hlive _ hmem
          rw [h.status] at hc hd
          simp [prunable, hc, hd] at this
        refine ⟨removeListener_subscribed h key _ hnot, ?_⟩
        have : (s.removeListener key (.listener cl target id uuid key)).trace = s.trace := by
          unfold Manager.removeListener
          split
          · split <;> rfl
          · rfl
        simp [this]
      · exact ⟨h, by simp⟩

theorem mapListeners_elsewhere {workers : Nat → WorkerStatus} {p : String} {ls : List Fn}
    {c : Nat} (hlive : ∀ f ∈ ls, prunable workers f = false) (q : String) (hq : q ≠ p)
    (v : JSValue) (n : Nat) :
    ∀ (k : Nat) (s : Manager), Subscribed workers p ls (.user c) s →
      Subscribed workers p ls (.user c) (Manager.mapListeners q v n k s) ∧
      callsOf (.user c) (Manager.mapListeners q v n k s).trace = callsOf (.user c) s.trace := by
  induction n with
  | zero => intro k s h; exact ⟨h, rfl⟩
  | succ n ih =>
    intro k s h
    simp only [Manager.mapListeners]
    split
    · rename_i f hf
      have hne : f ≠ .user c := by
        intro e
        cases hl : s.listeners q with
        | none => simp [hl] at hf
        | some l =>
          simp only [hl, Option.getD_some] at hf
          exact h.elsewhere q l hq hl (e ▸ List.getElem?_mem hf)
      have h1 := callListener_subscribed h hlive f v
      have h2 := ih (k + 1) _ h1.1
      exact ⟨h2.1, by rw [h2.2, h1.2]; simp [hne]⟩
    · exact ih (k + 1) s h

theorem mapListeners_beyond (p : String) (v : JSValue) (n : Nat) :
    ∀ (k : Nat) (s : Manager), ((s.listeners p).getD []).length ≤ k →
      Manager.mapListeners p v n k s = s := by
  induction n with
  | zero => intro k s _; rfl
  | succ n ih =>
    intro k s hk
    simp only [Manager.mapListeners, List.getElem?_eq_none hk]
    exact ih (k + 1) s (by omega)

theorem mapListeners_here {workers : Nat → WorkerStatus} {p : String} {c : Nat}
    (v : JSValue) (n : Nat) :
    ∀ (pre suf : List Fn) (s : Manager),
      (∀ f ∈ pre ++ suf, prunable workers f = false) →
      Subscribed workers p (pre ++ suf) (.user c) s →
      Subscribed workers p (pre ++ suf) (.user c) (Manager.mapListeners p v n pre.length s) ∧
      callsOf (.user c) (Manager.mapListeners p v n pre.length s).trace =
        callsOf (.user c) s.trace ++ List.replicate ((suf.take n).count (.user c)) v := by
  induction n with
  | zero => intro pre suf s _ h; exact ⟨h, by simp [Manager.mapListeners]⟩
  | succ n ih =>
    intro pre suf s hlive h
    simp only [Manager.mapListeners, h.here, Option.getD_some]
    cases suf with
    | nil =>
      have hnone : (pre ++ ([] : List Fn))[pre.length]? = none := by simp
      simp only [hnone]
      rw [mapListeners_beyond p v n (pre.length + 1) s (by simp [h.here])]
      exact ⟨h, by simp⟩
    | cons f suf =>
      have hget : (pre ++ f :: suf)[pre.length]? = some f := by
        rw [List.getElem?_append_right (Nat.le_refl _)]
        simp
      simp only [hget]
      have h1 := callListener_subscribed h hlive f v
      have e : pre ++ f :: suf = (pre ++ [f]) ++ suf := by simp
      have h2 := ih (pre ++ [f]) suf (s.callListener f v) (e ▸ hlive) (e ▸ h1.1)
      rw [List.length_append, List.length_singleton] at h2
      refine ⟨e ▸ h2.1, ?_⟩
      rw [h2.2, h1.2, List.take_succ_cons, List.count_cons]
      by_cases hf : f = .user c
      · simp [hf]
        rfl
      · simp [hf]

theorem notifyListener_subscribed {workers : Nat → WorkerStatus} {p : String} {ls : List Fn}
    {c : Nat} {s : Manager} (h : Subscribed workers p ls (.user c) s)
    (hlive : ∀ f ∈ ls, prunable workers f = false) (hone : ls.count (.user c) = 1) (key : Key) :
    Subscribed workers p ls (.user c) (s.notifyListener key) ∧
    callsOf (.user c) (s.notifyListener key).trace =
      callsOf (.user c) s.trace ++ (if key.toPropertyKey = p then [s.memoryGet key] else []) := by
  unfold Manager.notifyListener
  by_cases hp : key.toPropertyKey = p
  · subst hp
    simp only [h.here, if_true]
    have := mapListeners_here (c := c) (s.memoryGet key) ls.length [] ls s hlive h
    simpa [hone] using this
  · simp only [hp, if_false, List.append_nil]
    split
    · exact mapListeners_elsewhere hlive _ hp _ _ 0 s h
    · exact ⟨h, rfl⟩

theorem write_subscribed {workers : Nat → WorkerStatus} {p : String} {ls : List Fn}
    {c : Nat} {s : Manager} (h : Subscribed workers p ls (.user c) s)
    (hlive : ∀ f ∈ ls, prunable workers f = false) (hone : ls.count (.user c) = 1) (w : Write) :
    Subscribed workers p ls (.user c) (s.write w) ∧
    callsOf (.user c) (s.write w).trace =
      callsOf (.user c) s.trace ++ (w.notification p).toList := by
  cases w with
  | set key value =>
    simp only [Manager.write, Manager.set, Write.notification]
    by_cases hk : key.truthy = true
    · have h0 : Subscribed workers p ls (.user c)
          { s with memory := s.memory.assign key.toPropertyKey value } :=
        ⟨h.status, h.here, h.elsewhere⟩
      have h1 := notifyListener_subscribed h0 hlive hone key
      simp only [hk, if_true, Manager.store, true_and]
      refine ⟨h1.1, ?_⟩
      rw [h1.2]
      simp only [Manager.memoryGet, Dict.assign, if_true, Option.getD_some]
      split <;> simp
    · simp [hk, h]
  | remove key =>
    simp only [Manager.write, Manager.remove, Write.notification]
    have h0 : Subscribed workers p ls (.user c)
        { s with memory := s.memory.delete key.toPropertyKey } :=
      ⟨h.status, h.here, h.elsewhere⟩
    have h1 := notifyListener_subscribed h0 hlive hone key
    simp only [Manager.unstore]
    refine ⟨h1.1, ?_⟩
    rw [h1.2]
    simp only [Manager.memoryGet, Dict.delete, if_true, Option.getD_none]
    split <;> simp

theorem writes_subscribed {workers : Nat → WorkerStatus} {p : String} {ls : List Fn}
    {c : Nat} (hlive : ∀ f ∈ ls, prunable workers f = false) (hone : ls.count (.user c) = 1)
    (ws : List Write) :
    ∀ s : Manager, Subscribed workers p ls (.user c) s →
      callsOf (.user c) (s.writes ws).trace =
        callsOf (.user c) s.trace ++ ws.filterMap (Write.notification p) := by
  induction ws with
  | nil => intro s _; simp [Manager.writes]
  | cons w ws ih =>
    intro s h
    have h1 := write_subscribed h hlive hone w
    have h2 := ih (s.write w) h1.1
    simp only [Manager.writes, List.foldl_cons] at h2 ⊢
    rw [h2, h1.2, List.filterMap_cons]
    cases w.notification p <;> simp

theorem callListener_keeps {workers : Nat → WorkerStatus} {p : String} {ls : List Fn}
    {cb : Fn} {s : Manager} (h : Subscribed workers p ls cb s)
    (hlive : ∀ f ∈ ls, prunable workers f = false) (f : Fn) (v : JSValue) :
    Subscribed workers p ls cb (s.callListener f v) := by
  cases f with
  | user i => exact ⟨h.status, h.here, h.elsewhere⟩
  | resolve i => exact ⟨h.status, h.here, h.elsewhere⟩
  | listener cl target id uuid key =>
    simp only [Manager.callListener]
    split
    · split
      · exact ⟨h.status, h.here, h.elsewhere⟩
      · exact ⟨h.status, h.here, h.elsewhere⟩
    · rename_i hc
      split
      · rename_i hd
        have hnot : Fn.listener cl target id uuid key ∉ ls := by
          intro hmem
          have := hlive _ hmem
          rw [h.status] at hc hd
          simp [prunable, hc, hd] at this
        exact removeListener_subscribed h key _ hnot
      · exact h

theorem valuesFor_append (cb : Fn) (a b : List (Fn × JSValue)) :
    valuesFor cb (a ++ b) = valuesFor cb a ++ valuesFor cb b := by
  simp [valuesFor]

theorem valuesFor_cons (cb f : Fn) (v : JSValue) (a : List (Fn × JSValue)) :
    valuesFor cb ((f, v) :: a) = (if f = cb then [v] else []) ++ valuesFor cb a := by
  by_cases h : f = cb <;> simp [valuesFor, h]

theorem mapListeners_keeps {workers : Nat → WorkerStatus} {p : String} {ls : List Fn}
    {cb : Fn} (hlive : ∀ f ∈ ls, prunable workers f = false) (q : String) (v : JSValue)
    (n : Nat) :
    ∀ (k : Nat) (s : Manager), Subscribed workers p ls cb s →
      Subscribed workers p ls cb (Manager.mapListeners q v n k s) := by
  induction n with
  | zero => intro k s h; exact h
  | succ n ih =>
    intro k s h
    simp only [Manager.mapListeners]
    split
    · exact ih (k + 1) _ (callListener_keeps h hlive _ v)
    · exact ih (k + 1) s h

theorem mapCalls_elsewhere {workers : Nat → WorkerStatus} {p : String} {ls : List Fn}
    {cb : Fn} (hlive : ∀ f ∈ ls, prunable workers f = false) (q : String) (hq : q ≠ p)
    (v : JSValue) (n : Nat) :
    ∀ (k : Nat) (s : Manager), Subscribed workers p ls cb s →
      valuesFor cb (Manager.mapCalls q v n k s) = [] := by
  induction n with
  | zero => intro k s _; rfl
  | succ n ih =>
    intro k s h
    simp only [Manager.mapCalls]
    split
    · rename_i f hf
      have hne : f ≠ cb := by
        intro e
        cases hl : s.listeners q with
        | none => simp [hl] at hf
        | some l =>
          simp only [hl, Option.getD_some] at hf
          exact h.elsewhere q l hq hl (e ▸ List.getElem?_mem hf)
      rw [valuesFor_cons, ih (k + 1) _ (callListener_keeps h hlive f v)]
      simp [hne]
    · exact ih (k + 1) s h

theorem mapCalls_beyond (p : String) (v : JSValue) (n : Nat) :
    ∀ (k : Nat) (s : Manager), ((s.listeners p).getD []).length ≤ k →
      Manager.mapCalls p v n k s = [] := by
  induction n with
  | zero => intro k s _; rfl
  | succ n ih =>
    intro k s hk
    simp only [Manager.mapCalls, List.getElem?_eq_none hk]
    exact ih (k + 1) s (by omega)

theorem mapCalls_here {workers : Nat → WorkerStatus} {p : String} {cb : Fn}
    (v : JSValue) (n : Nat) :
    ∀ (pre suf : List Fn) (s : Manager),
      (∀ f ∈ pre ++ suf, prunable workers f = false) →
      Subscribed workers p (pre ++ suf) cb s →
      valuesFor cb (Manager.mapCalls p v n pre.length s) =
        List.replicate ((suf.take n).count cb) v := by
  induction n with
  | zero => intro pre suf s _ _; simp [Manager.mapCalls, valuesFor]
  | succ n ih =>
    intro pre suf s hlive h
    simp only [Manager.mapCalls, h.here, Option.getD_some]
    cases suf with
    | nil =>
      have hnone : (pre ++ ([] : List Fn))[pre.length]? = none := by simp
      simp only [hnone]
      rw [mapCalls_beyond p v n (pre.length + 1) s (by simp [h.here])]
      simp [valuesFor]
    | cons f suf =>
      have hget : (pre ++ f :: suf)[pre.length]? = some f := by
        rw [List.getElem?_append_right (Nat.le_refl _)]
        simp
      simp only [hget]
      have h1 := callListener_keeps h hlive f v
      have e : pre ++ f :: suf = (pre ++ [f]) ++ suf := by simp
      have h2 := ih (pre ++ [f]) suf (s.callListener f v) (e ▸ hlive) (e ▸ h1)
      rw [List.length_append, List.length_singleton] at h2
      rw [valuesFor_cons, h2, List.take_succ_cons, List.count_cons]
      by_cases hf : f = cb
      · simp [hf]
        rfl
      · simp [hf]

theorem notifyCalls_subscribed {workers : Nat → WorkerStatus} {p : String} {ls : List Fn}
    {cb : Fn} {s : Manager} (h : Subscribed workers p ls cb s)
    (hlive : ∀ f ∈ ls, prunable workers f = false) (hone : ls.count cb = 1) (key : Key) :
    Subscribed workers p ls cb (s.notifyListener key) ∧
    valuesFor cb (s.notifyCalls key) =
      (if key.toPropertyKey = p then [s.memoryGet key] else []) := by
  constructor
  · unfold Manager.notifyListener
    split
    · exact mapListeners_keeps hlive _ _ _ 0 s h
    · exact h
  · unfold Manager.notifyCalls
    by_cases hp : key.toPropertyKey = p
    · subst hp
      simp only [h.here, if_true]
      have := mapCalls_here (s.memoryGet key) ls.length [] ls s hlive h
      simpa [hone] using this
    · simp only [hp, if_false]
      split
      · exact mapCalls_elsewhere hlive _ hp _ _ 0 s h
      · rfl

theorem writeCalls_subscribed {workers : Nat → WorkerStatus} {p : String} {ls : List Fn}
    {cb : Fn} {s : Manager} (h : Subscribed workers p ls cb s)
    (hlive : ∀ f ∈ ls, prunable workers f = false) (hone : ls.count cb = 1) (w : Write) :
    Subscribed workers p ls cb (s.write w) ∧
    valuesFor cb (s.writeCalls w) = (w.notification p).toList := by
  cases w with
  | set key value =>
    simp only [Manager.write, Manager.set, Manager.writeCalls, Write.notification]
    by_cases hk : key.truthy = true
    · have h0 : Subscribed workers p ls cb
          { s with memory := s.memory.assign key.toPropertyKey value } :=
        ⟨h.status, h.here, h.elsewhere⟩
      have h1 := notifyCalls_subscribed h0 hlive hone key
      simp only [hk, if_true, Manager.store, true_and]
      refine ⟨h1.1, ?_⟩
      rw [h1.2]
      simp only [Manager.memoryGet, Dict.assign, if_true, Option.getD_some]
      split <;> simp
    · simp [hk, h, valuesFor]
  | remove key =>
    simp only [Manager.write, Manager.remove, Manager.writeCalls, Write.notification]
    have h0 : Subscribed workers p ls cb
        { s with memory := s.memory.delete key.toPropertyKey } :=
      ⟨h.status, h.here, h.elsewhere⟩
    have h1 := notifyCalls_subscribed h0 hlive hone key
    simp only [Manager.unstore]
    refine ⟨h1.1, ?_⟩
    rw [h1.2]
    simp only [Manager.memoryGet, Dict.delete, if_true, Option.getD_none]
    split <;> simp

theorem writesCalls_subscribed {p : String} {ls : List Fn} {cb : Fn}
    (hone : ls.count cb = 1) (steps : List ((Nat → WorkerStatus) × Write)) :
    ∀ (workers : Nat → WorkerStatus) (s : Manager), Subscribed workers p ls cb s →
      (∀ st ∈ steps, ∀ f ∈ ls, prunable st.1 f = false) →
      valuesFor cb (s.writesCalls steps) =
        steps.filterMap (fun st => st.2.notification p) := by
  induction steps with
  | nil => intro workers s _ _; rfl
  | cons st steps ih =>
    intro workers s h hlive
    have h0 : Subscribed st.1 p ls cb { s with workers := st.1 } := ⟨rfl, h.here, h.elsewhere⟩
    have h1 := writeCalls_subscribed h0 (hlive st (List.mem_cons_self _ _)) hone st.2
    have h2 := ih st.1 (s.writeUnder st) h1.1
      (fun st2 hst2 => hlive st2 (List.mem_cons_of_mem _ hst2))
    simp only [Manager.writesCalls, valuesFor_append, h1.2, h2, List.filterMap_cons]
    cases st.2.notification p <;> simp

theorem writesUnder_subscribed {p : String} {ls : List Fn} {c : Nat}
    (hone : ls.count (.user c) = 1) (steps : List ((Nat → WorkerStatus) × Write)) :
    ∀ (workers : Nat → WorkerStatus) (s : Manager), Subscribed workers p ls (.user c) s →
      (∀ st ∈ steps, ∀ f ∈ ls, prunable st.1 f = false) →
      callsOf (.user c) (s.writesUnder steps).trace =
        callsOf (.user c) s.trace ++ steps.filterMap (fun st => st.2.notification p) := by
  induction steps with
  | nil => intro workers s _ _; simp [Manager.writesUnder]
  | cons st steps ih =>
    intro workers s h hlive
    have h0 : Subscribed st.1 p ls (.user c) { s with workers := st.1 } :=
      ⟨rfl, h.here, h.elsewhere⟩
    have h1 := write_subscribed h0 (hlive st (List.mem_cons_self _ _)) hone st.2
    have h2 := ih st.1 (s.writeUnder st) h1.1
      (fun st2 hst2 => hlive st2 (List.mem_cons_of_mem _ hst2))
    simp only [Manager.writesUnder, List.foldl_cons] at h2 ⊢
    rw [h2]
    simp only [Manager.writeUnder]
    rw [h1.2, List.filterMap_cons]
    cases st.2.notification p <;> simp


/-- C9 (counterexample). (1) A listener on the empty-string key gets nothing
for `set('', 5)`.  (2) A listener registered on `'k'` behind the listener of a
worker that has exited gets nothing for the first `set('k', 5)`: the dead
listener removes itself during the broadcast and the next index is skipped.
(3) A listener on the string `'1'` is called for `set(1, 5)`.  (4) A listener on
`'k'` is called twice for one `set('k', 5, callback)`. -/
theorem listener_delivery_fails :
    callsOf (.user 0) ((((Manager.init sampleWorkers).listen (.str "") (.fn (.user 0))).1).writes
      [.set (.str "") (.number 5)]).trace = [] ∧
    callsOf (.user 0) ((((((Manager.init deadWorkers).listen (.str "k")
        (.fn (.listener 0 1 (.number 1) (.string "a") (.str "k")))).1).listen (.str "k")
        (.fn (.user 0))).1).writes [.set (.str "k") (.number 5)]).trace = [] ∧
    callsOf (.user 0) ((((Manager.init sampleWorkers).listen (.str "1") (.fn (.user 0))).1).writes
      [.set (.num 1) (.number 5)]).trace = [.number 5] ∧
    callsOf (.user 0) ((((Manager.init sampleWorkers).listen (.str "k") (.fn (.user 0))).1).set
      (.str "k") (.number 5) (.fn (.user 1))).1.trace = [.number 5, .number 5] := by
  decide

/-- C9 (amended). Delivery to a listener, for ordinary keys.  Let `cb` be a
function (a caller-supplied function or the closure of a worker listener) that
is not yet registered, `k` an ordinary key, and let a sequence of `set` and
`remove` calls on ordinary keys (without callback) follow `listen(k, cb)`, each
made under the status that the workers have at that moment.  When at none of
these writes a listener registered under the property name of `k`, `cb`
included, is the closure of a disconnected dead worker, then `listen` returns
normally and `cb` is called exactly once, in write order, for each `remove`
whose key has the property name of `k` (with `undefined`) and each `set` whose
key is truthy and has that property name (with the value written), and for no
other write.  For a caller-supplied function these are its calls recorded in
the trace. -/
theorem listener_delivery (s : Manager) (k : Key) (cb : Fn)
    (steps : List ((Nat → WorkerStatus) × Write))
    (_hk : k.ordinary = true) (_hcb : cb.ordinary = true)
    (_hkeys : ∀ st ∈ steps, st.2.key.ordinary = true)
    (_hclosures : ∀ q l, s.listeners q = some l → ∀ f ∈ l, f.ordinary = true)
    (hnew : ∀ q l, s.listeners q = some l → cb ∉ l)
    (hlive : ∀ st ∈ steps, ∀ f ∈ (s.listeners k.toPropertyKey).getD [] ++ [cb],
      prunable st.1 f = false) :
    (s.listen k (.fn cb)).2 = .ok () ∧
    valuesFor cb ((s.listen k (.fn cb)).1.writesCalls steps) =
      steps.filterMap (fun st => st.2.notification k.toPropertyKey) ∧
    ∀ c : Nat, cb = .user c →
      callsOf (.user c) ((s.listen k (.fn cb)).1.writesUnder steps).trace =
        callsOf (.user c) s.trace ++
          steps.filterMap (fun st => st.2.notification k.toPropertyKey) := by
  have hold : cb ∉ (s.listeners k.toPropertyKey).getD [] := by
    cases hl : s.listeners k.toPropertyKey with
    | none => simp
    | some l => simpa using hnew _ l hl
  have hone : ((s.listeners k.toPropertyKey).getD [] ++ [cb]).count cb = 1 := by
    rw [List.count_append, List.count_eq_zero_of_not_mem hold]
    simp
  have hsub : Subscribed s.workers k.toPropertyKey ((s.listeners k.toPropertyKey).getD [] ++ [cb])
      cb (s.listen k (.fn cb)).1 := by
    refine ⟨rfl, by simp [Manager.listen, Dict.assign], ?_⟩
    intro q l hq
    simp only [Manager.listen, Dict.assign, hq, if_false]
    exact hnew q l
  refine ⟨rfl, writesCalls_subscribed hone steps s.workers _ hsub hlive, ?_⟩
  intro c hc
  subst hc
  exact writesUnder_subscribed hone steps s.workers _ hsub hlive

/-- Witness of C9: the listener of worker `1` on `'k'` and four writes; the
worker is disconnected, not dead, at the second one.  Two writes are
delivered. -/
theorem listener_delivery_witness :
    valuesFor (.listener 0 1 (.number 1) (.string "a") (.str "k"))
      (((Manager.init sampleWorkers).listen (.str "k")
        (.fn (.listener 0 1 (.number 1) (.string "a") (.str "k")))).1.writesCalls
        [(sampleWorkers, .set (.str "k") (.number 1)),
         (detachedWorkers, .set (.str "j") (.number 2)),
         (sampleWorkers, .remove (.str "k")),
         (sampleWorkers, .set (.str "") (.number 3))]) = [.number 1, .undefined] :=
  (listener_delivery (Manager.init sampleWorkers) (.str "k")
    (.listener 0 1 (.number 1) (.string "a") (.str "k"))
    [(sampleWorkers, .set (.str "k") (.number 1)),
     (detachedWorkers, .set (.str "j") (.number 2)),
     (sampleWorkers, .remove (.str "k")),
     (sampleWorkers, .set (.str "") (.number 3))]
    (by decide) (by decide)
    (fun st hst => by
      simp only [List.mem_cons, List.mem_singleton, List.not_mem_nil, or_false] at hst
      rcases hst with h | h | h | h <;> subst h <;> decide)
    (fun q l h => by simp [Manager.init, Dict.empty] at h)
    (fun q l h => by simp [Manager.init, Dict.empty] at h)
    (fun st hst f hf => by
      have hf2 : f = .listener 0 1 (.number 1) (.string "a") (.str "k") := by
        simpa [Manager.init, Dict.empty] using hf
      subst hf2
      simp only [List.mem_cons, List.mem_singleton, List.not_mem_nil, or_false] at hst
      rcases hst with h | h | h | h <;> subst h <;> decide)).2.1

/-! ## C10: listen without a function -/

/-- C10 (the code at the failing input, and the claim for ordinary keys).  On a
new coordinator `listen('constructor', f)` with a function `f` throws the
`TypeError` of `.push` and appends nothing; for an ordinary string key the call
is the one modelled by `Manager.listen`.  Invalid listener: for every key and
every argument that is not a function (an omitted one is `undefined`),
`Manager.listen` throws and leaves the coordinator state, so the listener
registry, unchanged, and `Worker.listen` throws, sends no message and leaves the
worker state, so both correlation tables, unchanged.  With a function and an
ordinary key, `Manager.listen` returns normally, puts the function at the end of
the list stored under the key and leaves the list of every other property name,
and everything else, unchanged. -/
theorem listen_requires_function (uuid4 : Nat → String) (s : Manager) (w : Worker) (key : Key)
    (v : JSValue) (f : Fn) :
    (∀ workers : Nat → WorkerStatus,
      (Manager.init workers).listenAt "constructor" (.fn f) =
        (Manager.init workers, .error pushIsNotAFunction)) ∧
    (∀ (p : String) (callback : Arg), (Key.str p).ordinary = true →
      s.listenAt p callback = s.listen (.str p) callback) ∧
    (s.listen key (.val v)) = (s, .error "a listener must have a callback.") ∧
    (w.listen uuid4 key (.val v)) = (w, .error "a listener must have a callback.") ∧
    (key.ordinary = true →
      (s.listen key (.fn f)).2 = .ok () ∧
      (s.listen key (.fn f)).1.listeners key.toPropertyKey =
        some ((s.listeners key.toPropertyKey).getD [] ++ [f]) ∧
      (∀ q, q ≠ key.toPropertyKey → (s.listen key (.fn f)).1.listeners q = s.listeners q) ∧
      (s.listen key (.fn f)).1.memory = s.memory ∧
      (s.listen key (.fn f)).1.locks = s.locks ∧
      (s.listen key (.fn f)).1.lockRequestQueues = s.lockRequestQueues ∧
      (s.listen key (.fn f)).1.trace = s.trace) := by
  refine ⟨fun _ => rfl, fun p callback hp => listenAt_ordinary s p callback hp, rfl, rfl, fun _ =>
    ⟨rfl, by simp [Manager.listen, Dict.assign], ?_, rfl, rfl, rfl, rfl⟩⟩
  intro q hq
  simp [Manager.listen, Dict.assign, hq]

/-- Witness of C10: registering on `'k'` leaves the list of `'j'` as it was. -/
theorem listen_requires_function_witness :
    (Key.str "k").ordinary = true ∧ "j" ≠ (Key.str "k").toPropertyKey ∧
    ((Manager.init sampleWorkers).listen (.str "k") (.fn (.user 0))).1.listeners "j" =
      (Manager.init sampleWorkers).listeners "j" :=
  ⟨by decide, by decide, ((listen_requires_function sampleUuid4 (Manager.init sampleWorkers)
    { __getCallbacks__ := Dict.empty, __getListenerCallbacks__ := Dict.empty, id := 1,
      uuidCalls := 0, sent := [] } (.str "k") .undefined (.user 0)).2.2.2.2 (by decide)).2.2.1
      "j" (by decide)⟩

/-! ## C11: one-shot correlation in the worker -/

theorem dict_delete_absent {α : Type} (d : Dict α) (p : String) (h : d p = none) :
    d.delete p = d := by
  funext q
  simp only [Dict.delete]
  split
  · rename_i e; rw [e, h]
  · rfl

theorem handle_tables (uuid4 : Nat → String) (w : Worker) (method : String) (key : Key)
    (value : JSValue) (cb : Fn) (hm : method ≠ "listen") :
    (w.handle uuid4 method key value cb).__getCallbacks__ =
      w.__getCallbacks__.assign (uuid4 w.uuidCalls) cb ∧
    (w.handle uuid4 method key value cb).__getListenerCallbacks__ =
      w.__getListenerCallbacks__ := by
  simp [Worker.handle, hm]

theorem receive_listeners (w : Worker) (m : Message) :
    (w.receive m).1.__getListenerCallbacks__ = w.__getListenerCallbacks__ := by
  unfold Worker.receive
  split
  · split
    · split <;> rfl
    · rfl
  · rfl

theorem receive_absent (w : Worker) (m : Message) (u : String)
    (h : w.__getCallbacks__ u = none) : (w.receive m).1.__getCallbacks__ u = none := by
  unfold Worker.receive
  split
  · split
    · split <;> exact h
    · simp only [Dict.delete]
      split
      · rfl
      · exact h
  · exact h

theorem receive_silent (w : Worker) (m : Message) (u : String) (hu : m.uuid = .string u)
    (h1 : w.__getCallbacks__ u = none) (h2 : w.__getListenerCallbacks__ u = none) :
    (w.receive m).2 = [] := by
  cases h3 : m.isSharedMemoryMessage <;> cases h4 : m.isNotified <;>
    simp [Worker.receive, hu, JSValue.toJSString, h1, h2, h3, h4]

theorem receiveAll_silent (u : String) (ms : List Message) :
    ∀ w : Worker, (∀ m ∈ ms, m.uuid = .string u) → w.__getCallbacks__ u = none →
      w.__getListenerCallbacks__ u = none → (w.receiveAll ms).2 = [] := by
  induction ms with
  | nil => intro w _ _ _; rfl
  | cons m ms ih =>
    intro w hms h1 h2
    simp only [Worker.receiveAll]
    rw [receive_silent w m u (hms m (List.mem_cons_self _ _)) h1 h2]
    rw [ih (w.receive m).1 (fun x hx => hms x (List.mem_cons_of_mem _ hx))
      (receive_absent w m u h1) (by rw [receive_listeners]; exact h2)]
    rfl

/-- C11. One-shot correlation: after `handle(method, key, value, cb)` with a
method other than `listen`, whose uuid is not the uuid of a registered listener,
the first response (`isNotified` false) carrying that uuid calls `cb` exactly
once with the value of the message and deletes the entry, and no message that
carries this uuid afterwards causes any call.  A response whose uuid has no
entry in the table calls nothing and leaves the worker state, so both tables,
unchanged. -/
theorem one_shot_correlation (uuid4 : Nat → String) (w : Worker) (method : String) (key : Key)
    (value : JSValue) (cb : Fn) (id v : JSValue) (later : List Message)
    (hm : method ≠ "listen")
    (hfresh : w.__getListenerCallbacks__ (uuid4 w.uuidCalls) = none)
    (hlater : ∀ m ∈ later, m.uuid = .string (uuid4 w.uuidCalls)) :
    ((w.handle uuid4 method key value cb).receive
      { isSharedMemoryMessage := true, isNotified := false, id := id,
        uuid := .string (uuid4 w.uuidCalls), value := v }).2 = [(cb, v)] ∧
    ((w.handle uuid4 method key value cb).receive
      { isSharedMemoryMessage := true, isNotified := false, id := id,
        uuid := .string (uuid4 w.uuidCalls), value := v }).1.__getCallbacks__
      (uuid4 w.uuidCalls) = none ∧
    ((((w.handle uuid4 method key value cb).receive
      { isSharedMemoryMessage := true, isNotified := false, id := id,
        uuid := .string (uuid4 w.uuidCalls), value := v }).1).receiveAll later).2 = [] ∧
    ∀ (w2 : Worker) (m : Message), m.isNotified = false →
      w2.__getCallbacks__ m.uuid.toJSString = none →
      (w2.receive m).2 = [] ∧ (w2.receive m).1 = w2 := by
  have ht := handle_tables uuid4 w method key value cb hm
  have hcalls : ((w.handle uuid4 method key value cb).receive
      { isSharedMemoryMessage := true, isNotified := false, id := id,
        uuid := .string (uuid4 w.uuidCalls), value := v }).2 = [(cb, v)] := by
    simp [Worker.receive, JSValue.toJSString, ht.1, Dict.assign]
  have hgone : ((w.handle uuid4 method key value cb).receive
      { isSharedMemoryMessage := true, isNotified := false, id := id,
        uuid := .string (uuid4 w.uuidCalls), value := v }).1.__getCallbacks__
      (uuid4 w.uuidCalls) = none := by
    simp [Worker.receive, JSValue.toJSString, Dict.delete]
  refine ⟨hcalls, hgone, ?_, ?_⟩
  · apply receiveAll_silent _ later _ hlater hgone
    rw [receive_listeners, ht.2]
    exact hfresh
  · intro w2 m hn habs
    constructor
    · cases hs : m.isSharedMemoryMessage <;> simp [Worker.receive, hn, habs, hs]
    · simp only [Worker.receive, hn, dict_delete_absent _ _ habs]
      split <;> rfl

/-- Witness of C11: a `get` request answered once, then the answer repeated. -/
theorem one_shot_correlation_witness :
    ((((Worker.init 1).handle sampleUuid4 "get" (.str "k") .null (.user 0)).receive
      { isSharedMemoryMessage := true, isNotified := false, id := .number 1,
        uuid := .string (sampleUuid4 (Worker.init 1).uuidCalls), value := .number 5 }).1.receiveAll
      [{ isSharedMemoryMessage := true, isNotified := false, id := .number 1,
         uuid := .string "u", value := .number 6 },
       { isSharedMemoryMessage := true, isNotified := true, id := .number 1,
         uuid := .string "u", value := .number 7 }]).2 = [] :=
  (one_shot_correlation sampleUuid4 (Worker.init 1) "get" (.str "k") .null (.user 0)
    (.number 1) (.number 5) _ (by decide) rfl (by decide)).2.2.1

/-! ## C12: standing listeners in the worker -/

theorem receiveAll_listeners (ms : List Message) :
    ∀ w : Worker, (w.receiveAll ms).1.__getListenerCallbacks__ = w.__getListenerCallbacks__ := by
  induction ms with
  | nil => intro w; rfl
  | cons m ms ih =>
    intro w
    simp only [Worker.receiveAll]
    rw [ih, receive_listeners]

theorem receiveAll_notifications (u : String) (cb : Fn) (ms : List Message) :
    ∀ w : Worker, w.__getListenerCallbacks__ u = some cb →
      (∀ m ∈ ms, m.isSharedMemoryMessage = true ∧ m.isNotified = true ∧ m.uuid = .string u) →
      w.receiveAll ms = (w, ms.map (fun m => (cb, m.value))) := by
  induction ms with
  | nil => intro w _ _; rfl
  | cons m ms ih =>
    intro w hw hms
    obtain ⟨h1, h2, h3⟩ := hms m (List.mem_cons_self _ _)
    have hr : w.receive m = (w, [(cb, m.value)]) := by
      simp [Worker.receive, h1, h2, h3, JSValue.toJSString, hw]
    simp only [Worker.receiveAll, hr, List.map_cons]
    rw [ih w hw (fun x hx => hms x (List.mem_cons_of_mem _ hx))]
    rfl

/-- C12. Standing listeners: `listen(key, cb)` stores `cb` in the listener
table under the uuid of its request; a sequence of notifications (`isNotified`
true) carrying that uuid calls `cb` once per message with the values in arrival
order and leaves the worker state as it was, `cb` still registered.  No
sequence of messages of any kind changes the listener table, and a response
(`isNotified` false) calls at most the entry of `__getCallbacks__` for its
uuid, never an entry of the listener table. -/
theorem standing_listener (uuid4 : Nat → String) (w : Worker) (key : Key) (cb : Fn)
    (ms : List Message)
    (hms : ∀ m ∈ ms, m.isSharedMemoryMessage = true ∧ m.isNotified = true ∧
      m.uuid = .string (uuid4 w.uuidCalls)) :
    (w.listen uuid4 key (.fn cb)).1.__getListenerCallbacks__ (uuid4 w.uuidCalls) = some cb ∧
    (w.listen uuid4 key (.fn cb)).1.receiveAll ms =
      ((w.listen uuid4 key (.fn cb)).1, ms.map (fun m => (cb, m.value))) ∧
    (∀ (w2 : Worker) (any : List Message),
      (w2.receiveAll any).1.__getListenerCallbacks__ = w2.__getListenerCallbacks__) ∧
    ∀ (w2 : Worker) (m : Message), m.isNotified = false →
      (w2.receive m).2 = [] ∨
      ∃ f, w2.__getCallbacks__ m.uuid.toJSString = some f ∧ (w2.receive m).2 = [(f, m.value)] := by
  have hreg : (w.listen uuid4 key (.fn cb)).1.__getListenerCallbacks__ (uuid4 w.uuidCalls) =
      some cb := by
    simp [Worker.listen, Worker.handle, Dict.assign]
  refine ⟨hreg, receiveAll_notifications _ cb ms _ hreg hms, ?_, ?_⟩
  · intro w2 any
    exact receiveAll_listeners any w2
  · intro w2 m hn
    cases hs : m.isSharedMemoryMessage with
    | false => left; simp [Worker.receive, hs]
    | true =>
      cases h : w2.__getCallbacks__ m.uuid.toJSString with
      | none => left; simp [Worker.receive, hn, h, hs]
      | some f => right; exact ⟨f, rfl, by simp [Worker.receive, hn, h, hs]⟩

/-- Witness of C12: two notifications for a listener on `'k'`. -/
theorem standing_listener_witness :
    ((Worker.init 1).listen sampleUuid4 (.str "k") (.fn (.user 0))).1.receiveAll
      [{ isSharedMemoryMessage := true, isNotified := true, id := .number 1,
         uuid := .string "u", value := .number 5 },
       { isSharedMemoryMessage := true, isNotified := true, id := .number 1,
         uuid := .string "u", value := .undefined }] =
      (((Worker.init 1).listen sampleUuid4 (.str "k") (.fn (.user 0))).1,
        [(Fn.user 0, JSValue.number 5), (Fn.user 0, JSValue.undefined)]) :=
  (standing_listener sampleUuid4 (Worker.init 1) (.str "k") (.user 0) _ (by decide)).2.1

/-! ## C13: the dispatcher answers every request -/

/-- C13 (the code at the failing input). For a `set` or `setLRU` request whose
key is the empty string or `0`, the method returns `undefined`, so `handle`
throws at `.then`: nothing is sent and the state is as before.  For
comparison, a `get` request in the initial state is answered with exactly one
response carrying the uuid and worker id of the request. -/
theorem handle_set_falsy_key_throws (uuid4 : Nat → String) {L : Type} (c : LRUCache L)
    (s : Coordinator L) (lru : L)
    (id target : Nat) (uuid : String) (value : JSValue) :
    (Coordinator.handle uuid4 c s
      { isSharedMemoryMessage := true, id := id, method := "set", uuid := uuid, key := .str "",
        value := value } target).2 =
      .error "TypeError: Cannot read properties of undefined (reading 'then')" ∧
    (Coordinator.handle uuid4 c s
      { isSharedMemoryMessage := true, id := id, method := "set", uuid := uuid, key := .str "",
        value := value } target).1.manager.trace = s.manager.trace ∧
    (Coordinator.handle uuid4 c s
      { isSharedMemoryMessage := true, id := id, method := "set", uuid := uuid, key := .num 0,
        value := value } target).2 =
      .error "TypeError: Cannot read properties of undefined (reading 'then')" ∧
    (Coordinator.handle uuid4 c s
      { isSharedMemoryMessage := true, id := id, method := "setLRU", uuid := uuid, key := .str "",
        value := value } target).2 =
      .error "TypeError: Cannot read properties of undefined (reading 'then')" ∧
    (Coordinator.handle uuid4 c (Coordinator.init sampleWorkers lru)
      { isSharedMemoryMessage := true, id := id, method := "get", uuid := uuid, key := .str "",
        value := value } target).1.manager.trace =
      [.sent target { isSharedMemoryMessage := true, isNotified := false, id := .number id,
                      uuid := .string uuid, value := .undefined }] := by
  refine ⟨?_, ?_, ?_, ?_, ?_⟩
  · cases h : value.truthy <;>
      simp [Coordinator.handle, Coordinator.invoke, Manager.handleArgs, h, Manager.set, Key.truthy]
  · cases h : value.truthy <;>
      simp [Coordinator.handle, Coordinator.invoke, Manager.handleArgs, h, Manager.set, Key.truthy]
  · cases h : value.truthy <;>
      simp [Coordinator.handle, Coordinator.invoke, Manager.handleArgs, h, Manager.set, Key.truthy]
  · cases h : value.truthy <;>
      simp [Coordinator.handle, Coordinator.invoke, Manager.handleArgs, h, Coordinator.setLRU,
        Key.truthy]
  · cases h : value.truthy <;>
      simp [Coordinator.handle, Coordinator.invoke, Manager.handleArgs, h, Manager.get,
        Coordinator.settle, settleReactions, Coordinator.init, Manager.reply, Manager.emit,
        Manager.init, sampleWorkers, Manager.memoryGet, Dict.empty, Key.toPropertyKey]

/-! ## C14: falsy values through the dispatcher -/

/-- C14 (the code at the failing input). From the initial state, after the
request `set` with key `'k'` and a value that is `0`, `false`, the empty string
or `null`, the request `get` with key `'k'` is answered with the value
`undefined`: the dispatcher calls `set('k')` without the value.  With the value
`1` the answer is `1`. -/
theorem handle_set_falsy_value_lost (uuid4 : Nat → String) {L : Type} (c : LRUCache L) (lru : L)
    (id target : Nat) (u1 u2 : String) :
    setThenGet uuid4 c lru sampleWorkers id target u1 u2 (.str "k") (.number 0) =
      [.sent target (Request.response (Request.mk true id "set" u1 (.str "k") (.number 0))
          (.string "OK")),
       .sent target (Request.response (Request.mk true id "get" u2 (.str "k") .null)
          .undefined)] ∧
    setThenGet uuid4 c lru sampleWorkers id target u1 u2 (.str "k") (.bool false) =
      [.sent target (Request.response (Request.mk true id "set" u1 (.str "k") (.bool false))
          (.string "OK")),
       .sent target (Request.response (Request.mk true id "get" u2 (.str "k") .null)
          .undefined)] ∧
    setThenGet uuid4 c lru sampleWorkers id target u1 u2 (.str "k") (.string "") =
      [.sent target (Request.response (Request.mk true id "set" u1 (.str "k") (.string ""))
          (.string "OK")),
       .sent target (Request.response (Request.mk true id "get" u2 (.str "k") .null)
          .undefined)] ∧
    setThenGet uuid4 c lru sampleWorkers id target u1 u2 (.str "k") .null =
      [.sent target (Request.response (Request.mk true id "set" u1 (.str "k") .null)
          (.string "OK")),
       .sent target (Request.response (Request.mk true id "get" u2 (.str "k") .null)
          .undefined)] ∧
    setThenGet uuid4 c lru sampleWorkers id target u1 u2 (.str "k") (.number 1) =
      [.sent target (Request.response (Request.mk true id "set" u1 (.str "k") (.number 1))
          (.string "OK")),
       .sent target (Request.response (Request.mk true id "get" u2 (.str "k") .null)
          (.number 1))] := by
  refine ⟨?_, ?_, ?_, ?_, ?_⟩ <;>
    simp [setThenGet, Coordinator.handle, Coordinator.invoke, Manager.handleArgs, JSValue.truthy,
      Manager.set, Manager.get, Key.truthy, Manager.store, Manager.notifyListener,
      Coordinator.settle, settleReactions, Coordinator.init, Manager.reply, Manager.emit,
      Manager.init, Manager.memoryGet, Dict.empty, Dict.assign, Key.toPropertyKey,
      sampleWorkers, Request.response]

/-! ## C15: no lost wake-up -/

theorem handleLockRequest_awake {uuid4 : Nat → String} (hne : ∀ n, uuid4 n ≠ "")
    (s : Manager) (key : Key) (h : ∀ q, q ≠ key.toPropertyKey → Awake s q) :
    ∀ q, Awake (s.handleLockRequest uuid4 key) q := by
  intro q
  unfold Manager.handleLockRequest
  split
  · rename_i callback rest hfree hq
    by_cases e : q = key.toPropertyKey
    · intro _
      subst e
      simp [Dict.assign, lockFree, hne]
    · have := h q e
      simpa [Awake, Dict.assign, e] using this
  · rename_i hno
    by_cases e : q = key.toPropertyKey
    · subst e
      intro hq
      cases hf : lockFree (s.locks key.toPropertyKey) with
      | false => rfl
      | true =>
        cases hl : s.lockRequestQueues key.toPropertyKey with
        | none => simp [hl] at hq
        | some l =>
          cases l with
          | nil => simp [hl] at hq
          | cons a l => exact absurd hl (hno a l hf)
    · exact h q e

theorem enqueue_awake {uuid4 : Nat → String} (hne : ∀ n, uuid4 n ≠ "")
    (s : Manager) (key : Key) (f : Fn) (h : ∀ q, Awake s q) :
    ∀ q, Awake (s.enqueue uuid4 key f) q := by
  unfold Manager.enqueue
  apply handleLockRequest_awake hne
  intro q hq
  have := h q
  simpa [Awake, Dict.assign, hq] using this

theorem release_awake {uuid4 : Nat → String} (hne : ∀ n, uuid4 n ≠ "")
    (s : Manager) (key : Key) (lockId : JSValue) (h : ∀ q, Awake s q) :
    ∀ q, Awake (s.release uuid4 key lockId).1 q := by
  unfold Manager.release
  split
  · apply handleLockRequest_awake hne
    intro q hq
    have := h q
    simpa [Awake, Dict.delete, hq] using this
  · exact h

theorem lockCalls_awake {uuid4 : Nat → String} (hne : ∀ n, uuid4 n ≠ "")
    (calls : List LockCall) :
    ∀ s : Manager, (∀ q, Awake s q) → ∀ q, Awake (s.lockCalls uuid4 calls) q := by
  induction calls with
  | nil => intro s h; exact h
  | cons c calls ih =>
    intro s h
    simp only [Manager.lockCalls, List.foldl_cons]
    apply ih
    cases c with
    | getLock key callback =>
      cases callback with
      | fn f =>
        simp only [Manager.lockCall, Manager.getLock]
        apply enqueue_awake hne
        intro q
        exact enqueue_awake hne s key f h q
      | val v =>
        simp only [Manager.lockCall, Manager.getLock]
        apply enqueue_awake hne
        intro q
        exact h q
    | releaseLock key lockId callback =>
      cases callback with
      | fn f =>
        simp only [Manager.lockCall, Manager.releaseLock]
        apply release_awake hne
        intro q
        exact release_awake hne s key lockId h q
      | val v =>
        simp only [Manager.lockCall, Manager.releaseLock]
        exact release_awake hne s key lockId h

/-- C15 (the code at the failing input, and the claim for ordinary keys).  On a
new coordinator the key `'constructor'` has no holder and no waiter, and
`getLock('constructor', f)` throws the `TypeError` of `.push`: the request is
not granted.  No lost wake-up for ordinary keys: in every state reached from the
initial state by `getLock` and `releaseLock` calls on ordinary keys (any
arguments), when `uuid4` never returns the empty string, every ordinary key is
either idle (no holder, no waiter) or held by a non-empty token, so a non-empty
queue implies a holder.  And in any state, `getLock` on an idle ordinary key is
granted within the call: the only event of the call is the grant of a fresh
token to the first requester (the callback when one is given, otherwise the
promise), and the token is recorded in `locks[key]`. -/
theorem no_lost_wakeup (uuid4 : Nat → String) (hne : ∀ n, uuid4 n ≠ "")
    (workers : Nat → WorkerStatus) (calls : List LockCall) (k : Key)
    (_hcalls : ∀ c ∈ calls, c.key.ordinary = true) (_hk : k.ordinary = true) :
    ((Manager.init workers).locks "constructor" = none ∧
      (Manager.init workers).lockRequestQueues "constructor" = none ∧
      ∀ f : Fn, (Manager.init workers).getLockAt uuid4 "constructor" (.fn f) =
        .error pushIsNotAFunction) ∧
    ((((Manager.init workers).lockCalls uuid4 calls).locks k.toPropertyKey = none ∧
        (((Manager.init workers).lockCalls uuid4 calls).lockRequestQueues
          k.toPropertyKey).getD [] = []) ∨
      ∃ t, ((Manager.init workers).lockCalls uuid4 calls).locks k.toPropertyKey = some t ∧
        t ≠ "") ∧
    ∀ (s : Manager) (key : Key) (callback : Arg), key.ordinary = true →
      s.locks key.toPropertyKey = none →
      (s.lockRequestQueues key.toPropertyKey).getD [] = [] →
      (s.getLock uuid4 key callback).1.trace = s.trace ++
        [.granted key.toPropertyKey
          (match callback with
            | .fn f => f
            | .val _ => .resolve s.promises) (uuid4 s.uuidCalls)] ∧
      (s.getLock uuid4 key callback).1.locks key.toPropertyKey = some (uuid4 s.uuidCalls) := by
  refine ⟨⟨rfl, rfl, fun _ => rfl⟩, ?_, ?_⟩
  · have hinv := lockInv_lockCalls hne calls (lockInv_init workers)
    have haw := lockCalls_awake hne calls (Manager.init workers)
      (fun q => by simp [Awake, Manager.init, Dict.empty]) k.toPropertyKey
    cases hl : ((Manager.init workers).lockCalls uuid4 calls).locks k.toPropertyKey with
    | none =>
      left
      refine ⟨rfl, ?_⟩
      by_contra hq
      have := haw hq
      simp [hl, lockFree] at this
    | some t => right; exact ⟨t, rfl, hinv.nonempty k.toPropertyKey t hl⟩
  · intro s key callback _ hl hq
    have hb : ∀ n, (uuid4 n == "") = false := fun n => by simp [hne]
    cases callback with
    | fn f =>
      simp [Manager.getLock, Manager.enqueue, Manager.handleLockRequest, hl, hq, lockFree,
        Dict.assign, hb]
    | val v =>
      simp [Manager.getLock, Manager.enqueue, Manager.handleLockRequest, hl, hq, lockFree,
        Dict.assign]

/-- Witness of C15: two requests on `'k'`, the second one waits behind a holder. -/
theorem no_lost_wakeup_witness :
    (∀ c ∈ [LockCall.getLock (.str "k") (.val .undefined),
        LockCall.getLock (.str "k") (.val .undefined)], c.key.ordinary = true) ∧
    (Key.str "k").ordinary = true ∧
    ((((Manager.init sampleWorkers).lockCalls sampleUuid4
        [.getLock (.str "k") (.val .undefined), .getLock (.str "k") (.val .undefined)]).locks "k" =
          none ∧
      (((Manager.init sampleWorkers).lockCalls sampleUuid4
        [.getLock (.str "k") (.val .undefined),
          .getLock (.str "k") (.val .undefined)]).lockRequestQueues "k").getD [] = []) ∨
    ∃ t, ((Manager.init sampleWorkers).lockCalls sampleUuid4
        [.getLock (.str "k") (.val .undefined), .getLock (.str "k") (.val .undefined)]).locks "k" =
          some t ∧ t ≠ "") :=
  ⟨by decide, by decide,
    (no_lost_wakeup sampleUuid4 sampleUuid4_ne sampleWorkers
      [.getLock (.str "k") (.val .undefined), .getLock (.str "k") (.val .undefined)] (.str "k")
      (by decide) (by decide)).2.1⟩

/-! ## C18: what an idle key leaves behind -/

theorem handleLockRequest_entry (uuid4 : Nat → String) (s : Manager) (key : Key) (p : String) :
    (s.handleLockRequest uuid4 key).lockRequestQueues p = none ↔
      s.lockRequestQueues p = none := by
  unfold Manager.handleLockRequest
  split
  · rename_i callback rest hfree hq
    by_cases e : p = key.toPropertyKey
    · subst e; simp [Dict.assign, hq]
    · simp [Dict.assign, e]
  · rfl

theorem enqueue_entry (uuid4 : Nat → String) (s : Manager) (key : Key) (f : Fn) (p : String) :
    (s.enqueue uuid4 key f).lockRequestQueues p = none ↔
      (s.lockRequestQueues p = none ∧ key.toPropertyKey ≠ p) := by
  unfold Manager.enqueue
  rw [handleLockRequest_entry]
  by_cases e : p = key.toPropertyKey
  · subst e; simp [Dict.assign]
  · have e2 : key.toPropertyKey ≠ p := fun h => e h.symm
    simp [Dict.assign, e, e2]

theorem release_entry (uuid4 : Nat → String) (s : Manager) (key : Key) (lockId : JSValue)
    (p : String) :
    (s.release uuid4 key lockId).1.lockRequestQueues p = none ↔
      s.lockRequestQueues p = none := by
  unfold Manager.release
  split
  · rw [handleLockRequest_entry]
  · rfl

theorem lockCall_entry (uuid4 : Nat → String) (s : Manager) (c : LockCall) (p : String) :
    (s.lockCall uuid4 c).lockRequestQueues p = none ↔
      (s.lockRequestQueues p = none ∧ c.requesters s p = []) := by
  cases c with
  | getLock key callback =>
    cases callback with
    | fn f =>
      simp only [Manager.lockCall, Manager.getLock, LockCall.requesters]
      rw [enqueue_entry]
      have := enqueue_entry uuid4 s key f p
      simp only [] at this ⊢
      rw [this]
      by_cases e : key.toPropertyKey = p <;> simp [e]
    | val v =>
      simp only [Manager.lockCall, Manager.getLock, LockCall.requesters]
      rw [enqueue_entry]
      by_cases e : key.toPropertyKey = p <;> simp [e]
  | releaseLock key lockId callback =>
    cases callback with
    | fn f =>
      simp only [Manager.lockCall, Manager.releaseLock, LockCall.requesters]
      rw [release_entry]
      simpa [Manager.emit] using release_entry uuid4 s key lockId p
    | val v =>
      simp only [Manager.lockCall, Manager.releaseLock, LockCall.requesters]
      rw [release_entry]; simp

theorem lockCalls_entry (uuid4 : Nat → String) (calls : List LockCall) (p : String) :
    ∀ s : Manager, (s.lockCalls uuid4 calls).lockRequestQueues p = none ↔
      (s.lockRequestQueues p = none ∧ s.requesters uuid4 p calls = []) := by
  induction calls with
  | nil => intro s; simp [Manager.lockCalls, Manager.requesters]
  | cons c calls ih =>
    intro s
    have h := ih (s.lockCall uuid4 c)
    simp only [Manager.lockCalls, List.foldl_cons, Manager.requesters] at h ⊢
    rw [h, lockCall_entry]
    simp [and_assoc]

/-- C18 (counterexample). After `getLock('k')` and the release of its token the
key `'k'` has no holder and no waiter, yet `lockRequestQueues` keeps an entry
for it, the empty array; in the initial state it had none. -/
theorem idle_key_keeps_queue_entry :
    ((Manager.init sampleWorkers).lockCalls sampleUuid4
      [.getLock (.str "k") (.val .undefined),
        .releaseLock (.str "k") (.string "u") (.val .undefined)]).locks "k" = none ∧
    ((Manager.init sampleWorkers).lockCalls sampleUuid4
      [.getLock (.str "k") (.val .undefined),
        .releaseLock (.str "k") (.string "u") (.val .undefined)]).lockRequestQueues "k" =
      some [] ∧
    (Manager.init sampleWorkers).lockRequestQueues "k" = none := by
  decide

/-- C18 (amended). For every sequence of `getLock` and `releaseLock` calls on
ordinary keys from the initial state, with `uuid4` never empty, and every
ordinary key: when the key has no
holder (`!locks[key]`) and no pending waiter afterwards, `locks` has no entry
for it, and `lockRequestQueues` has no entry for it exactly when no `getLock`
was called on it; once the key has been requested, its entry is the empty
array. -/
theorem idle_key_structure (uuid4 : Nat → String) (hne : ∀ n, uuid4 n ≠ "")
    (workers : Nat → WorkerStatus) (calls : List LockCall) (k : Key)
    (_hcalls : ∀ c ∈ calls, c.key.ordinary = true) (_hk : k.ordinary = true)
    (hfree : lockFree (((Manager.init workers).lockCalls uuid4 calls).locks
      k.toPropertyKey) = true)
    (hempty : (((Manager.init workers).lockCalls uuid4 calls).lockRequestQueues
      k.toPropertyKey).getD [] = []) :
    ((Manager.init workers).lockCalls uuid4 calls).locks k.toPropertyKey = none ∧
    ((((Manager.init workers).lockCalls uuid4 calls).lockRequestQueues k.toPropertyKey = none ∧
        (Manager.init workers).requesters uuid4 k.toPropertyKey calls = []) ∨
      (((Manager.init workers).lockCalls uuid4 calls).lockRequestQueues k.toPropertyKey =
          some [] ∧
        (Manager.init workers).requesters uuid4 k.toPropertyKey calls ≠ [])) := by
  have hinv := lockInv_lockCalls hne calls (lockInv_init workers)
  have hent := lockCalls_entry uuid4 calls k.toPropertyKey (Manager.init workers)
  refine ⟨lockFree_of_nonempty (hinv.nonempty k.toPropertyKey) hfree, ?_⟩
  cases hq : ((Manager.init workers).lockCalls uuid4 calls).lockRequestQueues
      k.toPropertyKey with
  | none => left; exact ⟨rfl, (hent.1 hq).2⟩
  | some l =>
    right
    rw [hq] at hempty
    simp only [Option.getD_some] at hempty
    refine ⟨by rw [hempty], ?_⟩
    intro hr
    have := hent.2 ⟨rfl, hr⟩
    rw [hq] at this
    cases this

/-- Witness of C18: a request and its release on `'k'`. -/
theorem idle_key_structure_witness :
    (∀ c ∈ [LockCall.getLock (.str "k") (.val .undefined),
        LockCall.releaseLock (.str "k") (.string "u") (.val .undefined)],
      c.key.ordinary = true) ∧
    (Key.str "k").ordinary = true ∧
    ((Manager.init sampleWorkers).lockCalls sampleUuid4
      [.getLock (.str "k") (.val .undefined),
        .releaseLock (.str "k") (.string "u") (.val .undefined)]).locks "k" = none :=
  ⟨by decide, by decide, (idle_key_structure sampleUuid4 sampleUuid4_ne sampleWorkers
    [.getLock (.str "k") (.val .undefined),
      .releaseLock (.str "k") (.string "u") (.val .undefined)] (.str "k")
    (by decide) (by decide) (by decide) (by decide)).1⟩

/-! ## C16: broadcast with a listener that removes itself -/

/-- C16 (the code at the failing input). On `'k'` are registered the function
`0`, the listener of worker `1`, the functions `1` and `2`.  When worker `1` has
exited, the broadcast of `set('k', 5)` calls the functions `0` and `2` only:
the dead listener removes itself at index `1`, the function `1` moves to that
index and is skipped.  When all workers are connected, the same broadcast
calls every listener once, in registration order. -/
theorem broadcast_skips_after_pruning :
    (broadcastScenario oneDeadWorker).trace =
      [.called (.user 0) (.number 5), .called (.user 2) (.number 5)] ∧
    (broadcastScenario oneDeadWorker).listeners "k" = some [.user 0, .user 1, .user 2] ∧
    (broadcastScenario sampleWorkers).trace =
      [.called (.user 0) (.number 5),
       .sent 1 (Message.mk true true (.number 1) (.string "a") (.number 5)),
       .called (.user 1) (.number 5), .called (.user 2) (.number 5)] := by
  decide

/-! ## C19: calls with a callback -/

/-- C19 (the code at the failing input). With a function as callback the body
of a method runs twice.  `getLock('k', cb)` on an idle key grants `cb` and
leaves a second request, that of the returned promise, in the queue, where the
call without callback leaves the queue empty.  `releaseLock('k', token, cb)`
calls `cb` with `OK` and resolves the promise with the mismatch text.
`set('k', 5, cb)` notifies a listener of `'k'` twice.  In the worker,
`getLock('k', cb)` sends two requests, the call without callback one. -/
theorem callback_runs_body_twice :
    ((Manager.init sampleWorkers).getLock sampleUuid4 (.str "k") (.fn (.user 0))).1.lockRequestQueues
      "k" = some [.resolve 0] ∧
    ((Manager.init sampleWorkers).getLock sampleUuid4 (.str "k")
      (.val .undefined)).1.lockRequestQueues "k" = some [] ∧
    ((((Manager.init sampleWorkers).getLock sampleUuid4 (.str "k")
      (.val .undefined)).1).releaseLock sampleUuid4 (.str "k") (.string "u")
      (.fn (.user 0))).1.trace =
      [.granted "k" (.resolve 0) "u", .released "k" (.string "u"),
        .called (.user 0) (.string "OK")] ∧
    ((((Manager.init sampleWorkers).getLock sampleUuid4 (.str "k")
      (.val .undefined)).1).releaseLock sampleUuid4 (.str "k") (.string "u")
      (.fn (.user 0))).2 =
      .resolved (.string "Failed. LockId:u does not match k's lockId.") ∧
    ((((Manager.init sampleWorkers).listen (.str "k") (.fn (.user 1))).1).set (.str "k")
      (.number 5) (.fn (.user 0))).1.trace =
      [.called (.user 1) (.number 5), .called (.user 0) (.string "OK"),
        .called (.user 1) (.number 5)] ∧
    ((Worker.init 1).getLock sampleUuid4 (.str "k") (.fn (.user 0))).1.sent.length = 2 ∧
    ((Worker.init 1).getLock sampleUuid4 (.str "k") (.val .undefined)).1.sent.length = 1 := by
  decide

/-! ## C17: pruning of worker listeners -/

/-- C17 (counterexample). The listener of worker `1` is registered on `'k'` and
`set('k', 5)` is called.  When the worker is disconnected but not dead, nothing
is sent or logged and the listener stays registered.  When the worker is
connected and the send reports an error, the error is logged and the listener
stays registered. -/
theorem listener_kept_on_failed_delivery :
    (pruningScenario detachedWorkers).trace = [] ∧
    (pruningScenario detachedWorkers).listeners "k" =
      some [.listener 0 1 (.number 1) (.string "a") (.str "k")] ∧
    (pruningScenario failingWorkers).trace =
      [.sent 1 (Message.mk true true (.number 1) (.string "a") (.number 5)), .logged 1] ∧
    (pruningScenario failingWorkers).listeners "k" =
      some [.listener 0 1 (.number 1) (.string "a") (.str "k")] := by
  decide

/-- C17 (amended). Pruning of a worker listener, for an ordinary key.  `handle`
answers a `listen` request by putting a new closure at the end of the list of the key.  When this
closure is called with a value: if the worker is connected, exactly one message
is sent to it, with `isNotified` true, the id and uuid of the request and the
value, a send error is logged, and the registry is unchanged; if the worker is
disconnected and dead, nothing is sent, the first occurrence of the closure,
and nothing else, is removed from the list of its key, so a closure registered
once is no longer in the list; if the worker is disconnected and not dead,
nothing happens and the closure stays. -/
theorem worker_listener_pruning {L : Type} (uuid4 : Nat → String) (c : LRUCache L)
    (cs : Coordinator L) (data : Request) (target : Nat) (s : Manager) (ls : List Fn)
    (value : JSValue) (hlisten : data.method = "listen")
    (_hord : data.key.ordinary = true)
    (hreg : s.listeners data.key.toPropertyKey = some ls) :
    (Coordinator.handle uuid4 c cs data target).2 = .ok () ∧
    (Coordinator.handle uuid4 c cs data target).1.manager.listeners data.key.toPropertyKey =
      some ((cs.manager.listeners data.key.toPropertyKey).getD [] ++
        [.listener cs.closures target (.number data.id) (.string data.uuid) data.key]) ∧
    ((s.workers target).connected = true →
      (s.callListener (.listener cs.closures target (.number data.id) (.string data.uuid)
          data.key) value).listeners = s.listeners ∧
      (s.callListener (.listener cs.closures target (.number data.id) (.string data.uuid)
          data.key) value).trace =
        s.trace ++ .sent target (Message.mk true true (.number data.id) (.string data.uuid) value) ::
          (if (s.workers target).sendError then [.logged target] else [])) ∧
    ((s.workers target).connected = false → (s.workers target).dead = true →
      (s.callListener (.listener cs.closures target (.number data.id) (.string data.uuid)
          data.key) value).listeners data.key.toPropertyKey =
        some (ls.erase (.listener cs.closures target (.number data.id) (.string data.uuid)
          data.key)) ∧
      (∀ q, q ≠ data.key.toPropertyKey →
        (s.callListener (.listener cs.closures target (.number data.id) (.string data.uuid)
          data.key) value).listeners q = s.listeners q) ∧
      (s.callListener (.listener cs.closures target (.number data.id) (.string data.uuid)
          data.key) value).trace = s.trace ∧
      (ls.count (.listener cs.closures target (.number data.id) (.string data.uuid)
          data.key) ≤ 1 →
        Fn.listener cs.closures target (.number data.id) (.string data.uuid) data.key ∉
          ls.erase (.listener cs.closures target (.number data.id) (.string data.uuid)
            data.key))) ∧
    ((s.workers target).connected = false → (s.workers target).dead = false →
      s.callListener (.listener cs.closures target (.number data.id) (.string data.uuid)
          data.key) value = s) := by
  refine ⟨?_, ?_, ?_, ?_, ?_⟩
  · simp [Coordinator.handle, hlisten]
  · simp [Coordinator.handle, hlisten, Manager.listen, Dict.assign]
  · intro hc
    constructor
    · simp only [Manager.callListener, hc, if_true, Manager.emit]
      split <;> rfl
    · simp only [Manager.callListener, hc, if_true, Manager.emit]
      split <;> simp
  · intro hc hd
    simp only [Manager.callListener, hc, hd, if_true, Manager.removeListener, hreg,
      Bool.false_eq_true, if_false]
    by_cases hmem : Fn.listener cs.closures target (.number data.id) (.string data.uuid)
        data.key ∈ ls
    · simp only [hmem, if_true]
      refine ⟨?_, ?_, ?_, ?_⟩
      · simp [Dict.assign]
      · intro q hq
        simp [Dict.assign, hq]
      · trivial
      · intro hcount hin
        have h1 := List.count_erase_self
          (Fn.listener cs.closures target (.number data.id) (.string data.uuid) data.key) ls
        have h2 := List.count_pos_iff.2 hin
        omega
    · simp only [hmem, if_false]
      refine ⟨?_, ?_, ?_, ?_⟩
      · rw [hreg, List.erase_of_not_mem hmem]
      · intro q _
        trivial
      · trivial
      · intro _ hin
        exact hmem (List.mem_of_mem_erase hin)
  · intro hc hd
    simp [Manager.callListener, hc, hd]

/-- Witness of C17: the listener of the exited worker `1` is called. -/
theorem worker_listener_pruning_witness :
    (Key.str "k").ordinary = true ∧
    (((Manager.init oneDeadWorker).listen (.str "k")
      (.fn (.listener 0 1 (.number 1) (.string "a") (.str "k")))).1.callListener
      (.listener 0 1 (.number 1) (.string "a") (.str "k")) (.number 5)).listeners
      (Key.str "k").toPropertyKey = some [] :=
  ⟨by decide, ((worker_listener_pruning sampleUuid4 sampleLRU (Coordinator.init oneDeadWorker [])
    (Request.mk true 1 "listen" "a" (.str "k") .null) 1
    ((Manager.init oneDeadWorker).listen (.str "k")
      (.fn (.listener 0 1 (.number 1) (.string "a") (.str "k")))).1
    [.listener 0 1 (.number 1) (.string "a") (.str "k")] (.number 5) rfl (by decide)
    rfl).2.2.2.1 rfl rfl).1⟩

/-! ## C20: key independence -/

theorem step_refl {ls : List Fn} {p p2 : String} {callback : Arg} {s : Manager}
    (hsub : ∀ f ∈ (s.listeners p).getD [], f ∈ ls) : Step ls p p2 callback s s :=
  ⟨rfl, rfl, rfl, rfl, rfl, hsub, rfl, [], by simp, by simp⟩

theorem step_trans {ls : List Fn} {p p2 : String} {callback : Arg} {s s1 s2 : Manager}
    (h1 : Step ls p p2 callback s s1) (h2 : Step ls p p2 callback s1 s2) :
    Step ls p p2 callback s s2 := by
  obtain ⟨n1, e1, c1⟩ := h1.events
  obtain ⟨n2, e2, c2⟩ := h2.events
  refine ⟨h2.status.trans h1.status, h2.memory.trans h1.memory, h2.locks.trans h1.locks,
    h2.queue.trans h1.queue, h2.listeners.trans h1.listeners, h2.sub,
    h2.granted.trans h1.granted, n1 ++ n2, by rw [e2, e1, List.append_assoc], ?_⟩
  intro e he
  rcases List.mem_append.1 he with h | h
  · exact c1 e h
  · have := c2 e h
    rw [h1.status] at this
    exact this

theorem step_of_fields {ls : List Fn} {p p2 : String} {callback : Arg} {s s2 : Manager}
    (hsub : ∀ f ∈ (s.listeners p).getD [], f ∈ ls)
    (hw : s2.workers = s.workers) (hm : s2.memory p2 = s.memory p2)
    (hl : s2.locks p2 = s.locks p2) (hq : s2.lockRequestQueues p2 = s.lockRequestQueues p2)
    (hls : s2.listeners = s.listeners) (ht : s2.trace = s.trace) :
    Step ls p p2 callback s s2 :=
  ⟨hw, hm, hl, hq, by rw [hls], by rw [hls]; exact hsub, by rw [ht], [], by simp [ht], by simp⟩

theorem callEvents_grants (workers : Nat → WorkerStatus) (f : Fn) (v : JSValue) (q : String) :
    grants q (callEvents workers f v) = [] := by
  cases f with
  | user i => rfl
  | resolve i => rfl
  | listener c t i u k =>
    simp only [callEvents]
    split
    · split <;> rfl
    · rfl

theorem callListener_trace (s : Manager) (f : Fn) (v : JSValue) :
    (s.callListener f v).trace = s.trace ++ callEvents s.workers f v := by
  cases f with
  | user i => rfl
  | resolve i => rfl
  | listener c t i u k =>
    simp only [Manager.callListener, callEvents]
    split
    · split <;> simp [Manager.emit]
    · split
      · simp only [Manager.removeListener]
        split
        · split <;> simp
        · simp
      · simp

theorem callListener_step {ls : List Fn} {p p2 : String} {callback : Arg} {s : Manager}
    (hp : p2 ≠ p) (hplaced : wellPlaced p ls) (hsub : ∀ f ∈ (s.listeners p).getD [], f ∈ ls)
    (f : Fn) (hf : f ∈ ls) (v : JSValue) :
    Step ls p p2 callback s (s.callListener f v) := by
  have htr := callListener_trace s f v
  have hev : ∃ new, (s.callListener f v).trace = s.trace ++ new ∧
      ∀ e ∈ new, Event.concerns s.workers p ls callback e :=
    ⟨_, htr, fun e he => Or.inr (Or.inr (Or.inr ⟨f, v, hf, he⟩))⟩
  have hgr : grants p2 (s.callListener f v).trace = grants p2 s.trace := by
    rw [htr, grants_append, callEvents_grants, List.append_nil]
  cases f with
  | user i => exact ⟨rfl, rfl, rfl, rfl, rfl, hsub, hgr, hev⟩
  | resolve i => exact ⟨rfl, rfl, rfl, rfl, rfl, hsub, hgr, hev⟩
  | listener c t i u k =>
    have hk := hplaced c t i u k hf
    have key : (s.callListener (.listener c t i u k) v).workers = s.workers ∧
        (s.callListener (.listener c t i u k) v).memory = s.memory ∧
        (s.callListener (.listener c t i u k) v).locks = s.locks ∧
        (s.callListener (.listener c t i u k) v).lockRequestQueues = s.lockRequestQueues ∧
        (s.callListener (.listener c t i u k) v).listeners p2 = s.listeners p2 ∧
        ∀ g ∈ ((s.callListener (.listener c t i u k) v).listeners p).getD [],
          g ∈ (s.listeners p).getD [] := by
      simp only [Manager.callListener]
      split
      · split <;> exact ⟨rfl, rfl, rfl, rfl, rfl, fun g hg => hg⟩
      · split
        · simp only [Manager.removeListener, hk]
          split
          · rename_i l hl
            split
            · refine ⟨rfl, rfl, rfl, rfl, by simp [Dict.assign, hp], ?_⟩
              intro g hg
              simp only [Dict.assign, if_true, Option.getD_some] at hg
              rw [hl]
              exact List.mem_of_mem_erase hg
            · exact ⟨rfl, rfl, rfl, rfl, rfl, fun g hg => hg⟩
          · exact ⟨rfl, rfl, rfl, rfl, rfl, fun g hg => hg⟩
        · exact ⟨rfl, rfl, rfl, rfl, rfl, fun g hg => hg⟩
    obtain ⟨k1, k2, k3, k4, k5, k6⟩ := key
    exact ⟨k1, by rw [k2], by rw [k3], by rw [k4], k5, fun g hg => hsub g (k6 g hg), hgr, hev⟩

theorem mapListeners_step {ls : List Fn} {p p2 : String} {callback : Arg}
    (hp : p2 ≠ p) (hplaced : wellPlaced p ls) (v : JSValue) (n : Nat) :
    ∀ (k : Nat) (s : Manager), (∀ f ∈ (s.listeners p).getD [], f ∈ ls) →
      Step ls p p2 callback s (Manager.mapListeners p v n k s) := by
  induction n with
  | zero => intro k s hsub; exact step_refl hsub
  | succ n ih =>
    intro k s hsub
    simp only [Manager.mapListeners]
    split
    · rename_i f hf
      have h1 : Step ls p p2 callback s (s.callListener f v) :=
        callListener_step hp hplaced hsub f (hsub f (List.getElem?_mem hf)) v
      exact step_trans h1 (ih (k + 1) _ h1.sub)
    · exact ih (k + 1) s hsub

theorem notifyListener_step {ls : List Fn} {p2 : String} {callback : Arg} {s : Manager}
    (key : Key) (hp : p2 ≠ key.toPropertyKey) (hplaced : wellPlaced key.toPropertyKey ls)
    (hsub : ∀ f ∈ (s.listeners key.toPropertyKey).getD [], f ∈ ls) :
    Step ls key.toPropertyKey p2 callback s (s.notifyListener key) := by
  unfold Manager.notifyListener
  split
  · exact mapListeners_step hp hplaced _ _ 0 s hsub
  · exact step_refl hsub

theorem emit_step {ls : List Fn} {p p2 : String} {callback : Arg} {s : Manager}
    (hsub : ∀ f ∈ (s.listeners p).getD [], f ∈ ls) (e : Event)
    (hc : Event.concerns s.workers p ls callback e) (hg : grants p2 [e] = []) :
    Step ls p p2 callback s (s.emit e) :=
  ⟨rfl, rfl, rfl, rfl, rfl, hsub, by simp [Manager.emit, grants_append, hg], [e], rfl,
    fun x hx => by rw [List.mem_singleton.1 hx]; exact hc⟩

theorem store_step {ls : List Fn} {p2 : String} {callback : Arg} {s : Manager}
    (key : Key) (value : JSValue) (hp : p2 ≠ key.toPropertyKey)
    (hplaced : wellPlaced key.toPropertyKey ls)
    (hsub : ∀ f ∈ (s.listeners key.toPropertyKey).getD [], f ∈ ls) :
    Step ls key.toPropertyKey p2 callback s (s.store key value) := by
  unfold Manager.store
  refine step_trans ?_ (notifyListener_step key hp hplaced ?_)
  · exact step_of_fields hsub rfl (by simp [Dict.assign, hp]) rfl rfl rfl rfl
  · exact hsub

theorem unstore_step {ls : List Fn} {p2 : String} {callback : Arg} {s : Manager}
    (key : Key) (hp : p2 ≠ key.toPropertyKey) (hplaced : wellPlaced key.toPropertyKey ls)
    (hsub : ∀ f ∈ (s.listeners key.toPropertyKey).getD [], f ∈ ls) :
    Step ls key.toPropertyKey p2 callback s (s.unstore key) := by
  unfold Manager.unstore
  refine step_trans ?_ (notifyListener_step key hp hplaced ?_)
  · exact step_of_fields hsub rfl (by simp [Dict.delete, hp]) rfl rfl rfl rfl
  · exact hsub

theorem set_step {ls : List Fn} {p2 : String} {s : Manager}
    (key : Key) (value : JSValue) (callback : Arg) (hp : p2 ≠ key.toPropertyKey)
    (hplaced : wellPlaced key.toPropertyKey ls)
    (hsub : ∀ f ∈ (s.listeners key.toPropertyKey).getD [], f ∈ ls) :
    Step ls key.toPropertyKey p2 callback s (s.set key value callback).1 := by
  unfold Manager.set
  split
  · cases callback with
    | fn f =>
      have h1 : Step ls key.toPropertyKey p2 (.fn f) s (s.store key value) :=
        store_step key value hp hplaced hsub
      have h2 : Step ls key.toPropertyKey p2 (.fn f) _ _ := emit_step h1.sub (.called f (.string "OK"))
        (Or.inr (Or.inr (Or.inl ⟨f, _, rfl, rfl⟩))) rfl
      exact step_trans (step_trans h1 h2) (store_step key value hp hplaced h2.sub)
    | val v => exact store_step key value hp hplaced hsub
  · exact step_refl hsub

theorem remove_step {ls : List Fn} {p2 : String} {s : Manager}
    (key : Key) (callback : Arg) (hp : p2 ≠ key.toPropertyKey)
    (hplaced : wellPlaced key.toPropertyKey ls)
    (hsub : ∀ f ∈ (s.listeners key.toPropertyKey).getD [], f ∈ ls) :
    Step ls key.toPropertyKey p2 callback s (s.remove key callback).1 := by
  unfold Manager.remove
  cases callback with
  | fn f =>
    have h1 : Step ls key.toPropertyKey p2 (.fn f) s (s.unstore key) :=
      unstore_step key hp hplaced hsub
    have h2 : Step ls key.toPropertyKey p2 (.fn f) _ _ := emit_step h1.sub (.called f (.string "OK"))
      (Or.inr (Or.inr (Or.inl ⟨f, _, rfl, rfl⟩))) rfl
    exact step_trans (step_trans h1 h2) (unstore_step key hp hplaced h2.sub)
  | val v => exact unstore_step key hp hplaced hsub

theorem handleLockRequest_step {ls : List Fn} {p2 : String} {callback : Arg} {s : Manager}
    (uuid4 : Nat → String) (key : Key) (hp : p2 ≠ key.toPropertyKey)
    (hsub : ∀ f ∈ (s.listeners key.toPropertyKey).getD [], f ∈ ls) :
    Step ls key.toPropertyKey p2 callback s (s.handleLockRequest uuid4 key) := by
  unfold Manager.handleLockRequest
  split
  · rename_i cb rest hfree hq
    have hp3 : ¬ key.toPropertyKey = p2 := fun h => hp h.symm
    refine ⟨rfl, rfl, by simp [Dict.assign, hp], by simp [Dict.assign, hp], rfl, hsub,
      by simp [grants_append, grants, hp3], [_], rfl, ?_⟩
    intro e he
    rw [List.mem_singleton.1 he]
    exact Or.inl ⟨_, _, rfl⟩
  · exact step_refl hsub

theorem enqueue_step {ls : List Fn} {p2 : String} {callback : Arg} {s : Manager}
    (uuid4 : Nat → String) (key : Key) (f : Fn) (hp : p2 ≠ key.toPropertyKey)
    (hsub : ∀ f ∈ (s.listeners key.toPropertyKey).getD [], f ∈ ls) :
    Step ls key.toPropertyKey p2 callback s (s.enqueue uuid4 key f) := by
  unfold Manager.enqueue
  refine step_trans ?_ (handleLockRequest_step uuid4 key hp ?_)
  · exact step_of_fields hsub rfl rfl rfl (by simp [Dict.assign, hp]) rfl rfl
  · exact hsub

theorem release_step {ls : List Fn} {p2 : String} {callback : Arg} {s : Manager}
    (uuid4 : Nat → String) (key : Key) (lockId : JSValue) (hp : p2 ≠ key.toPropertyKey)
    (hsub : ∀ f ∈ (s.listeners key.toPropertyKey).getD [], f ∈ ls) :
    Step ls key.toPropertyKey p2 callback s (s.release uuid4 key lockId).1 := by
  unfold Manager.release
  split
  · refine step_trans ?_ (handleLockRequest_step uuid4 key hp ?_)
    · refine ⟨rfl, rfl, by simp [Dict.delete, hp], rfl, rfl, hsub,
        by simp [grants_append, grants], [_], rfl, ?_⟩
      intro e he
      rw [List.mem_singleton.1 he]
      exact Or.inr (Or.inl ⟨_, rfl⟩)
    · exact hsub
  · exact step_refl hsub

theorem getLock_step {ls : List Fn} {p2 : String} {s : Manager}
    (uuid4 : Nat → String) (key : Key) (callback : Arg) (hp : p2 ≠ key.toPropertyKey)
    (hsub : ∀ f ∈ (s.listeners key.toPropertyKey).getD [], f ∈ ls) :
    Step ls key.toPropertyKey p2 callback s (s.getLock uuid4 key callback).1 := by
  unfold Manager.getLock
  cases callback with
  | fn f =>
    have h1 : Step ls key.toPropertyKey p2 (.fn f) s (s.enqueue uuid4 key f) :=
      enqueue_step uuid4 key f hp hsub
    refine step_trans h1 (step_trans ?_ (enqueue_step uuid4 key _ hp ?_))
    · exact step_of_fields h1.sub rfl rfl rfl rfl rfl rfl
    · exact h1.sub
  | val v =>
    refine step_trans ?_ (enqueue_step uuid4 key _ hp ?_)
    · exact step_of_fields hsub rfl rfl rfl rfl rfl rfl
    · exact hsub

theorem releaseLock_step {ls : List Fn} {p2 : String} {s : Manager}
    (uuid4 : Nat → String) (key : Key) (lockId : JSValue) (callback : Arg)
    (hp : p2 ≠ key.toPropertyKey)
    (hsub : ∀ f ∈ (s.listeners key.toPropertyKey).getD [], f ∈ ls) :
    Step ls key.toPropertyKey p2 callback s (s.releaseLock uuid4 key lockId callback).1 := by
  unfold Manager.releaseLock
  cases callback with
  | fn f =>
    have h1 : Step ls key.toPropertyKey p2 (.fn f) s (s.release uuid4 key lockId).1 :=
      release_step uuid4 key lockId hp hsub
    have h2 : Step ls key.toPropertyKey p2 (.fn f) _ _ := emit_step h1.sub
      (.called f (s.release uuid4 key lockId).2)
      (Or.inr (Or.inr (Or.inl ⟨f, _, rfl, rfl⟩))) rfl
    exact step_trans (step_trans h1 h2) (release_step uuid4 key lockId hp h2.sub)
  | val v => exact release_step uuid4 key lockId hp hsub

/-- C20 (counterexample). The integer `1` and the string `'1'` are distinct
keys of the data model and name the same property: `set(1, 5)` changes the
value stored for `'1'`, `getLock(1)` records a holder for `'1'`, and
`listen(1, cb)` extends the listener list of `'1'`. -/
theorem number_and_string_keys_collide :
    Key.num 1 ≠ Key.str "1" ∧
    (((Manager.init sampleWorkers).set (.num 1) (.number 5) (.val .undefined)).1.get (.str "1")
      (.val .undefined)).2 = .resolved (.number 5) ∧
    ((Manager.init sampleWorkers).get (.str "1") (.val .undefined)).2 = .resolved .undefined ∧
    ((Manager.init sampleWorkers).getLock sampleUuid4 (.num 1) (.val .undefined)).1.locks
      (Key.str "1").toPropertyKey = some "u" ∧
    ((Manager.init sampleWorkers).listen (.num 1) (.fn (.user 0))).1.listeners
      (Key.str "1").toPropertyKey = some [.user 0] := by
  decide

/-- C20 (amended). Key independence by property name: let `k` and `k2` be
ordinary keys (no member of `Object.prototype`, integers within the safe range,
where the property name `String(k)` is the decimal numeral) with different
property names (`String(k) ≠ String(k2)`), in a state where
every worker listener registered under `k` carries an ordinary key named like
`k`.  Then
`set`, `remove`, `getLock` and `releaseLock` on `k`, with any arguments, leave
the stored value, the lock holder, the wait queue and the listener list of `k2`
unchanged, make no grant on `k2`, and add to the trace only events that concern
`k`: grants and releases on `k`, calls of the callback argument, and the events
of calling listeners registered under `k`.  `listen` on `k` changes nothing
but the listener list of `k`. -/
theorem key_independence (uuid4 : Nat → String) (s : Manager) (k k2 : Key)
    (value lockId : JSValue) (callback : Arg)
    (_hord : k.ordinary = true) (_hord2 : k2.ordinary = true)
    (_hclosures : ∀ f ∈ (s.listeners k.toPropertyKey).getD [], f.ordinary = true)
    (hk : k2.toPropertyKey ≠ k.toPropertyKey)
    (hplaced : wellPlaced k.toPropertyKey ((s.listeners k.toPropertyKey).getD [])) :
    Step ((s.listeners k.toPropertyKey).getD []) k.toPropertyKey k2.toPropertyKey callback s
      (s.set k value callback).1 ∧
    Step ((s.listeners k.toPropertyKey).getD []) k.toPropertyKey k2.toPropertyKey callback s
      (s.remove k callback).1 ∧
    Step ((s.listeners k.toPropertyKey).getD []) k.toPropertyKey k2.toPropertyKey callback s
      (s.getLock uuid4 k callback).1 ∧
    Step ((s.listeners k.toPropertyKey).getD []) k.toPropertyKey k2.toPropertyKey callback s
      (s.releaseLock uuid4 k lockId callback).1 ∧
    (s.listen k callback).1.memory = s.memory ∧
    (s.listen k callback).1.locks = s.locks ∧
    (s.listen k callback).1.lockRequestQueues = s.lockRequestQueues ∧
    (s.listen k callback).1.listeners k2.toPropertyKey = s.listeners k2.toPropertyKey ∧
    (s.listen k callback).1.trace = s.trace := by
  refine ⟨set_step k value callback hk hplaced (fun f hf => hf),
    remove_step k callback hk hplaced (fun f hf => hf),
    getLock_step uuid4 k callback hk (fun f hf => hf),
    releaseLock_step uuid4 k lockId callback hk (fun f hf => hf), ?_⟩
  cases callback with
  | fn f => simp [Manager.listen, Dict.assign, hk]
  | val v => simp [Manager.listen]

/-- Witness of C20: `set('a', 1)` seen from the key `'b'`, in the initial state. -/
theorem key_independence_witness :
    (Key.str "a").ordinary = true ∧ (Key.str "b").ordinary = true ∧
    (Key.str "b").toPropertyKey ≠ (Key.str "a").toPropertyKey ∧
    ((Manager.init sampleWorkers).set (.str "a") (.number 1) (.val .undefined)).1.memory
      (Key.str "b").toPropertyKey = (Manager.init sampleWorkers).memory (Key.str "b").toPropertyKey :=
  ⟨by decide, by decide, by decide,
    (key_independence sampleUuid4 (Manager.init sampleWorkers) (.str "a") (.str "b") (.number 1)
      .undefined (.val .undefined) (by decide) (by decide)
      (fun f h => by simp [Manager.init, Dict.empty] at h) (by decide)
      (fun c t i u k h => by simp [Manager.init, Dict.empty] at h)).1.memory⟩

end SharedMemory
